import Mathlib

/-!
Verification of the terminal styling library (escape scanner, width model,
measurement primitives, layout compositor, style renderer).

Strings are modelled as lists of UTF-16 code units (`JStr := List Nat`),
matching the JavaScript source, which indexes strings by code unit
(`charCodeAt`, `s[i]`, `slice`) and iterates code points with `for..of`.
-/

abbrev JStr := List Nat

/-- Scanner states of the escape-sequence state machine (`src/width.ts`). -/
inductive ScanState where
  | ground
  | escape
  | csiEntry
  | csiParam
  | csiInter
  | oscString
deriving DecidableEq, Repr

def isCsiParam (b : Nat) : Bool := 0x30 ≤ b && b ≤ 0x3f

def isCsiIntermediate (b : Nat) : Bool := 0x20 ≤ b && b ≤ 0x2f

def isCsiFinal (b : Nat) : Bool := 0x40 ≤ b && b ≤ 0x7e

/-- `codePointWidth` from `src/width.ts`: display-column cost of a code point. -/
def codePointWidth (cp : Nat) : Nat :=
  if cp < 0x20 ∨ (0x7f ≤ cp ∧ cp < 0xa0) then 0
  else if 0x20 ≤ cp ∧ cp ≤ 0x7e then 1
  else if (0x1100 ≤ cp ∧ cp ≤ 0x115f) ∨
          (0x2e80 ≤ cp ∧ cp ≤ 0x9fff) ∨
          (0xac00 ≤ cp ∧ cp ≤ 0xd7a3) ∨
          (0xf900 ≤ cp ∧ cp ≤ 0xfaff) ∨
          (0xfe10 ≤ cp ∧ cp ≤ 0xfe1f) ∨
          (0xfe30 ≤ cp ∧ cp ≤ 0xfe6f) ∨
          (0xff00 ≤ cp ∧ cp ≤ 0xff60) ∨
          (0xffe0 ≤ cp ∧ cp ≤ 0xffe6) ∨
          (0x20000 ≤ cp ∧ cp ≤ 0x2fffd) ∨
          (0x30000 ≤ cp ∧ cp ≤ 0x3fffd) then 2
  else if cp = 0x200d ∨ (0xfe00 ≤ cp ∧ cp ≤ 0xfe0f) ∨
          (0x1f3fb ≤ cp ∧ cp ≤ 0x1f3ff) then 0
  else if (0x1f300 ≤ cp ∧ cp ≤ 0x1f9ff) ∨
          (0x1fa00 ≤ cp ∧ cp ≤ 0x1faff) ∨
          (0x2600 ≤ cp ∧ cp ≤ 0x26ff) ∨
          (0x2700 ≤ cp ∧ cp ≤ 0x27bf) then 2
  else 1

/-- The scanning loop of `stripAnsi` (`src/width.ts`): emits only visible
bytes, driving the escape state machine over the code units. -/
def scanGo : ScanState → JStr → JStr
  | _, [] => []
  | .ground, c :: s =>
      if c = 0x1b then scanGo .escape s
      else if c = 0x9b then scanGo .csiEntry s
      else if c = 0x9d then scanGo .oscString s
      else c :: scanGo .ground s
  | .escape, c :: s =>
      if c = 0x5b then scanGo .csiEntry s
      else if c = 0x5d then scanGo .oscString s
      else if 0x40 ≤ c ∧ c ≤ 0x5f then scanGo .ground s
      else if 0x60 ≤ c ∧ c ≤ 0x7e then scanGo .ground s
      else 0x1b :: c :: scanGo .ground s
  | .csiEntry, c :: s =>
      if isCsiParam c then scanGo .csiParam s
      else if isCsiIntermediate c then scanGo .csiInter s
      else if isCsiFinal c then scanGo .ground s
      else scanGo .csiEntry s
  | .csiParam, c :: s =>
      if isCsiIntermediate c then scanGo .csiInter s
      else if isCsiFinal c then scanGo .ground s
      else scanGo .csiParam s
  | .csiInter, c :: s =>
      if isCsiFinal c then scanGo .ground s
      else scanGo .csiInter s
  | .oscString, 0x1b :: 0x5c :: s => scanGo .ground s
  | .oscString, c :: s =>
      if c = 0x07 ∨ c = 0x9c then scanGo .ground s
      else scanGo .oscString s

/-- `stripAnsi` from `src/width.ts`, including its fast path: a string
containing neither ESC nor 0x9b is returned unchanged. -/
def stripAnsi (s : JStr) : JStr :=
  if ¬ s.contains 0x1b ∧ ¬ s.contains 0x9b then s else scanGo .ground s

/-- UTF-16 code-point iteration (JavaScript `for..of`): surrogate pairs are
combined, lone surrogates yield their own value. -/
def codePoints : JStr → List Nat
  | [] => []
  | [c] => [c]
  | c :: c2 :: s =>
      if (0xd800 ≤ c ∧ c ≤ 0xdbff) ∧ (0xdc00 ≤ c2 ∧ c2 ≤ 0xdfff) then
        (0x10000 + (c - 0xd800) * 0x400 + (c2 - 0xdc00)) :: codePoints s
      else c :: codePoints (c2 :: s)

/-- `stringWidth` from `src/width.ts`. -/
def stringWidth (s : JStr) : Nat :=
  if s = [] then 0
  else ((codePoints (stripAnsi s)).map codePointWidth).sum

/-- JavaScript `s.split('\n')` (always at least one element). -/
def splitNL : JStr → List JStr
  | [] => [[]]
  | c :: s =>
      if c = 0x0a then [] :: splitNL s
      else
        match splitNL s with
        | h :: t => (c :: h) :: t
        | [] => [[c]]

/-- JavaScript `lines.join('\n')`. -/
def joinNL (ls : List JStr) : JStr := (ls.intersperse [0x0a]).flatten

/-- `maxLineWidth` from `src/width.ts`. -/
def maxLineWidth (s : JStr) : Nat :=
  (splitNL s).foldl (fun m l => max m (stringWidth l)) 0

/-- `lineCount` from `src/width.ts`. -/
def lineCount (s : JStr) : Nat :=
  if s = [] then 0 else (splitNL s).length

/-- The column-budget walk of `truncate` (`src/width.ts`).  Returns the
accumulated output together with a flag recording whether the walk exited
early via `break` (budget exhausted). -/
def truncGo (tw : Nat) : Nat → ScanState → JStr → JStr → JStr × Bool
  | _, _, _, [] => ([], false)
  | cw, .ground, buf, c :: s =>
      if c = 0x1b then truncGo tw cw .escape [c] s
      else if c = 0x9b then truncGo tw cw .csiEntry [c] s
      else
        let w := codePointWidth c
        if cw + w > tw then ([], true)
        else
          let r := truncGo tw (cw + w) .ground buf s
          (c :: r.1, r.2)
  | cw, .escape, buf, c :: s =>
      if c = 0x5b then truncGo tw cw .csiEntry (buf ++ [c]) s
      else if c = 0x5d then truncGo tw cw .oscString (buf ++ [c]) s
      else
        let r := truncGo tw cw .ground [] s
        (buf ++ [c] ++ r.1, r.2)
  | cw, .csiEntry, buf, c :: s =>
      if isCsiFinal c then
        let r := truncGo tw cw .ground [] s
        (buf ++ [c] ++ r.1, r.2)
      else if isCsiParam c then truncGo tw cw .csiParam (buf ++ [c]) s
      else if isCsiIntermediate c then truncGo tw cw .csiInter (buf ++ [c]) s
      else truncGo tw cw .csiEntry (buf ++ [c]) s
  | cw, .csiParam, buf, c :: s =>
      if isCsiFinal c then
        let r := truncGo tw cw .ground [] s
        (buf ++ [c] ++ r.1, r.2)
      else if isCsiParam c then truncGo tw cw .csiParam (buf ++ [c]) s
      else if isCsiIntermediate c then truncGo tw cw .csiInter (buf ++ [c]) s
      else truncGo tw cw .csiParam (buf ++ [c]) s
  | cw, .csiInter, buf, c :: s =>
      if isCsiFinal c then
        let r := truncGo tw cw .ground [] s
        (buf ++ [c] ++ r.1, r.2)
      else truncGo tw cw .csiInter (buf ++ [c]) s
  | cw, .oscString, buf, 0x1b :: 0x5c :: s =>
      let r := truncGo tw cw .ground [] s
      (buf ++ [0x1b, 0x5c] ++ r.1, r.2)
  | cw, .oscString, buf, c :: s =>
      if c = 0x07 then
        let r := truncGo tw cw .ground [] s
        (buf ++ [c] ++ r.1, r.2)
      else truncGo tw cw .oscString (buf ++ [c]) s

/-- `truncate` from `src/width.ts`. -/
def truncate (s : JStr) (maxWidth : Int) (tl : JStr) : JStr :=
  if maxWidth ≤ 0 then []
  else if (stringWidth s : Int) ≤ maxWidth then s
  else
    let tailWidth := stringWidth tl
    let targetWidth : Int := maxWidth - tailWidth
    if targetWidth ≤ 0 then tl.take maxWidth.toNat
    else (truncGo targetWidth.toNat 0 .ground [] s).1 ++ tl

/-- `padLeft` from `src/width.ts`. -/
def padLeft (s : JStr) (width : Nat) (ch : JStr := [0x20]) : JStr :=
  let currentWidth := stringWidth s
  if currentWidth ≥ width then s
  else (List.replicate (width - currentWidth) ch).flatten ++ s

/-- `padRight` from `src/width.ts`. -/
def padRight (s : JStr) (width : Nat) (ch : JStr := [0x20]) : JStr :=
  let currentWidth := stringWidth s
  if currentWidth ≥ width then s
  else s ++ (List.replicate (width - currentWidth) ch).flatten

/-- `center` from `src/width.ts`. -/
def center (s : JStr) (width : Nat) (ch : JStr := [0x20]) : JStr :=
  let currentWidth := stringWidth s
  if currentWidth ≥ width then s
  else
    let total := width - currentWidth
    let l := total / 2
    let r := total - l
    (List.replicate l ch).flatten ++ s ++ (List.replicate r ch).flatten

/-! ### Layout compositor (`src/layout.ts`) -/

/-- JavaScript `String.prototype.repeat`: throws a `RangeError` on a negative
count, modelled as `none`. -/
def jsRepeat (x : JStr) (n : Int) : Option JStr :=
  if n < 0 then none else some (List.replicate n.toNat x).flatten

/-- Total repeat used where the source guards the count to be a natural. -/
def repeatN (x : JStr) (n : Nat) : JStr := (List.replicate n x).flatten

/-- The per-block vertical alignment step of `joinHorizontal`
(`src/layout.ts`): synthesize filler lines of spaces at the block width. -/
def jhAlign (position : Rat) (maxHeight : Nat) (lines : List JStr) (width : Nat) :
    List JStr :=
  if lines.length = maxHeight then lines
  else
    let diff := maxHeight - lines.length
    let emptyLine := repeatN [0x20] width
    if position ≤ 0 then lines ++ List.replicate diff emptyLine
    else if 1 ≤ position then List.replicate diff emptyLine ++ lines
    else
      let t := diff / 2
      let b := diff - t
      List.replicate t emptyLine ++ lines ++ List.replicate b emptyLine

/-- `joinHorizontal` from `src/layout.ts` (variadic argument as a list). -/
def joinHorizontal (position : Rat) (strs : List JStr) : JStr :=
  match strs with
  | [] => []
  | [s] => s
  | _ =>
    let allLines := strs.map splitNL
    let maxHeight := (allLines.map List.length).foldl max 0
    let widths := allLines.map (fun lines => maxLineWidth (joinNL lines))
    let alignedLines := (allLines.zip widths).map (fun p => jhAlign position maxHeight p.1 p.2)
    let paddedLines := (alignedLines.zip widths).map (fun p =>
      p.1.map (fun line => padRight line p.2))
    joinNL ((List.range maxHeight).map (fun row =>
      (paddedLines.map (fun lines => lines.getD row [])).flatten))

/-- The per-line alignment step of `joinVertical` (`src/layout.ts`). -/
def jvPadLine (position : Rat) (maxW : Nat) (line : JStr) : JStr :=
  let width := stringWidth line
  if width = maxW then line
  else
    let diff := maxW - width
    if position ≤ 0 then padRight line maxW
    else if 1 ≤ position then repeatN [0x20] diff ++ line
    else
      let l := diff / 2
      let r := diff - l
      repeatN [0x20] l ++ line ++ repeatN [0x20] r

/-- `joinVertical` from `src/layout.ts` (variadic argument as a list). -/
def joinVertical (position : Rat) (strs : List JStr) : JStr :=
  match strs with
  | [] => []
  | [s] => s
  | _ =>
    let maxW := (strs.map maxLineWidth).foldl max 0
    joinNL (strs.map (fun s => joinNL ((splitNL s).map (jvPadLine position maxW))))

/-- The `startX` computation of `place` (`src/layout.ts`). -/
def placeStartX (width : Int) (hPos : Rat) (contentWidth : Nat) : Int :=
  if hPos ≤ 0 then 0
  else if 1 ≤ hPos then width - contentWidth
  else Rat.floor (((width - contentWidth : Int) : Rat) * hPos)

/-- The `startY` computation of `place` (`src/layout.ts`). -/
def placeStartY (height : Int) (vPos : Rat) (contentHeight : Nat) : Int :=
  if vPos ≤ 0 then 0
  else if 1 ≤ vPos then height - contentHeight
  else Rat.floor (((height - contentHeight : Int) : Rat) * vPos)

/-- One output row of `place` (`src/layout.ts`); `none` models a thrown
`RangeError` from a negative-count `repeat`. -/
def placeRow (width : Int) (startX startY : Int) (contentLines : List JStr)
    (contentWidth : Nat) (background : JStr) (y : Nat) : Option JStr :=
  if startY ≤ (y : Int) ∧ (y : Int) < startY + contentLines.length then
    (jsRepeat background startX).bind (fun left =>
      (jsRepeat background (max 0 (width - startX - contentWidth))).map (fun right =>
        left ++ padRight (contentLines.getD ((y : Int) - startY).toNat []) contentWidth ++
          right))
  else jsRepeat background width

/-- `place` from `src/layout.ts`; `none` models a thrown `RangeError`. -/
def place (width height : Int) (hPos vPos : Rat) (content : JStr)
    (background : JStr := [0x20]) : Option JStr :=
  let contentLines := splitNL content
  let contentWidth := maxLineWidth content
  let contentHeight := contentLines.length
  let startX := placeStartX width hPos contentWidth
  let startY := placeStartY height vPos contentHeight
  ((List.range height.toNat).mapM
    (placeRow width startX startY contentLines contentWidth background)).map joinNL

/-- `getSize` from `src/layout.ts` as a (width, height) pair. -/
def getSize (s : JStr) : Nat × Nat := (maxLineWidth s, (splitNL s).length)

/-- `getWidth` from `src/layout.ts`. -/
def getWidth (s : JStr) : Nat := maxLineWidth s

/-- `getHeight` from `src/layout.ts`. -/
def getHeight (s : JStr) : Nat := (splitNL s).length

/-! ### Borders (`src/border.ts`) -/

structure BorderChars where
  top : JStr
  bottom : JStr
  left : JStr
  right : JStr
  topLeft : JStr
  topRight : JStr
  bottomLeft : JStr
  bottomRight : JStr

def NoBorder : BorderChars := ⟨[], [], [], [], [], [], [], []⟩

def NormalBorder : BorderChars :=
  ⟨[0x2500], [0x2500], [0x2502], [0x2502], [0x250c], [0x2510], [0x2514], [0x2518]⟩

def RoundedBorder : BorderChars :=
  ⟨[0x2500], [0x2500], [0x2502], [0x2502], [0x256d], [0x256e], [0x2570], [0x256f]⟩

def ThickBorder : BorderChars :=
  ⟨[0x2501], [0x2501], [0x2503], [0x2503], [0x250f], [0x2513], [0x2517], [0x251b]⟩

def DoubleBorder : BorderChars :=
  ⟨[0x2550], [0x2550], [0x2551], [0x2551], [0x2554], [0x2557], [0x255a], [0x255d]⟩

def HiddenBorder : BorderChars :=
  ⟨[0x20], [0x20], [0x20], [0x20], [0x20], [0x20], [0x20], [0x20]⟩

def AsciiBorder : BorderChars :=
  ⟨[0x2d], [0x2d], [0x7c], [0x7c], [0x2b], [0x2b], [0x2b], [0x2b]⟩

def StarBorder : BorderChars :=
  ⟨[0x2a], [0x2a], [0x2a], [0x2a], [0x2a], [0x2a], [0x2a], [0x2a]⟩

/-- `customBorder` from `src/border.ts`: merge the given fields over
`NormalBorder`. -/
def customBorder (t b l r tl tr bl br : Option JStr) : BorderChars :=
  ⟨t.getD NormalBorder.top, b.getD NormalBorder.bottom, l.getD NormalBorder.left,
   r.getD NormalBorder.right, tl.getD NormalBorder.topLeft, tr.getD NormalBorder.topRight,
   bl.getD NormalBorder.bottomLeft, br.getD NormalBorder.bottomRight⟩

/-! ### Style (`src/style.ts`) -/

def CSI : JStr := [0x1b, 0x5b]

def RESET : JStr := [0x1b, 0x5b, 0x6d]

/-- The `Position` enum values (`src/style.ts`). -/
def PositionTop : Rat := 0
def PositionBottom : Rat := 1
def PositionLeft : Rat := 0
def PositionRight : Rat := 1
def PositionCenter : Rat := 0.5

/-- `StyleColor` (`src/style.ts`): ANSI index, RGB record, or hex string. -/
inductive StyleColor where
  | num (n : Int)
  | rgb (r g b : Int)
  | hex (h : JStr)

/-- Decimal rendering of an integer, as code units (JS template literal). -/
def intToJStr (n : Int) : JStr := (toString n).toList.map Char.toNat

/-- JavaScript truncated remainder (`%`). -/
def jsRem (a b : Int) : Int := Int.tmod a b

def hexDigitVal (c : Nat) : Option Nat :=
  if 0x30 ≤ c ∧ c ≤ 0x39 then some (c - 0x30)
  else if 0x41 ≤ c ∧ c ≤ 0x46 then some (c - 0x41 + 10)
  else if 0x61 ≤ c ∧ c ≤ 0x66 then some (c - 0x61 + 10)
  else none

def hexDigitsAcc : JStr → Nat → Nat
  | [], acc => acc
  | c :: s, acc =>
      match hexDigitVal c with
      | some d => hexDigitsAcc s (acc * 16 + d)
      | none => acc

/-- JavaScript `parseInt(s, 16)`: skip whitespace, optional sign, optional
`0x` prefix, then the maximal hex-digit prefix; `none` models `NaN`. -/
def parseInt16 (s : JStr) : Option Int :=
  let s := s.dropWhile (fun c => [0x20, 0x9, 0xa, 0xb, 0xc, 0xd].contains c)
  let signAndRest : Bool × JStr :=
    match s with
    | 0x2d :: r => (true, r)
    | 0x2b :: r => (false, r)
    | _ => (false, s)
  let rest :=
    match signAndRest.2 with
    | 0x30 :: x :: r => if x = 0x78 ∨ x = 0x58 then r else 0x30 :: x :: r
    | r => r
  match rest with
  | [] => none
  | c :: _ =>
      match hexDigitVal c with
      | none => none
      | some _ =>
          let v : Int := hexDigitsAcc rest 0
          some (if signAndRest.1 then -v else v)

/-- `colorToSequence` from `src/style.ts`. -/
def colorToSequence (color : StyleColor) (isForeground : Bool) : JStr :=
  let base : Int := if isForeground then 38 else 48
  match color with
  | .num n =>
      if n < 16 then
        CSI ++ intToJStr ((if isForeground then 30 else 40) + jsRem n 8) ++ [0x6d]
      else
        CSI ++ intToJStr base ++ [0x3b, 0x35, 0x3b] ++ intToJStr n ++ [0x6d]
  | .rgb r g b =>
      CSI ++ intToJStr base ++ [0x3b, 0x32, 0x3b] ++ intToJStr r ++ [0x3b] ++
        intToJStr g ++ [0x3b] ++ intToJStr b ++ [0x6d]
  | .hex h =>
      let hx := match h with | 0x23 :: r => r | _ => h
      let hx := if hx.length = 3 then hx.flatMap (fun c => [c, c]) else hx
      let m : Nat :=
        match parseInt16 hx with
        | none => 0
        | some v => (v.emod (2 ^ 32)).toNat
      let r : Nat := m / 2 ^ 16 % 256
      let g : Nat := m / 2 ^ 8 % 256
      let b : Nat := m % 256
      CSI ++ intToJStr base ++ [0x3b, 0x32, 0x3b] ++ intToJStr (r : Int) ++ [0x3b] ++
        intToJStr (g : Int) ++ [0x3b] ++ intToJStr (b : Int) ++ [0x6d]

/-- `StyleOptions` (`src/style.ts`). -/
structure StyleOptions where
  bold : Bool
  italic : Bool
  underline : Bool
  strikethrough : Bool
  blink : Bool
  faint : Bool
  reverse : Bool
  foreground : Option StyleColor
  background : Option StyleColor
  width : Int
  height : Int
  maxWidth : Int
  maxHeight : Int
  alignHorizontal : Rat
  alignVertical : Rat
  paddingTop : Int
  paddingRight : Int
  paddingBottom : Int
  paddingLeft : Int
  marginTop : Int
  marginRight : Int
  marginBottom : Int
  marginLeft : Int
  marginBackground : Option StyleColor
  border : BorderChars
  borderTop : Bool
  borderRight : Bool
  borderBottom : Bool
  borderLeft : Bool
  borderForeground : Option StyleColor
  borderBackground : Option StyleColor
  inline : Bool
  colorWhitespace : Bool
  tabWidth : Int
  transform : Option (JStr → JStr)

/-- The constructor defaults of `Style` (`src/style.ts`). -/
def defaultStyle : StyleOptions where
  bold := false
  italic := false
  underline := false
  strikethrough := false
  blink := false
  faint := false
  reverse := false
  foreground := none
  background := none
  width := 0
  height := 0
  maxWidth := 0
  maxHeight := 0
  alignHorizontal := PositionLeft
  alignVertical := PositionTop
  paddingTop := 0
  paddingRight := 0
  paddingBottom := 0
  paddingLeft := 0
  marginTop := 0
  marginRight := 0
  marginBottom := 0
  marginLeft := 0
  marginBackground := none
  border := NoBorder
  borderTop := false
  borderRight := false
  borderBottom := false
  borderLeft := false
  borderForeground := none
  borderBackground := none
  inline := false
  colorWhitespace := true
  tabWidth := 4
  transform := none

namespace Style

/-- `Style.width` mutator: clamps to non-negative. -/
def width (st : StyleOptions) (w : Int) : StyleOptions := { st with width := max 0 w }

/-- `Style.height` mutator: clamps to non-negative. -/
def height (st : StyleOptions) (h : Int) : StyleOptions := { st with height := max 0 h }

/-- `Style.maxWidth` mutator: clamps to non-negative. -/
def maxWidth (st : StyleOptions) (w : Int) : StyleOptions := { st with maxWidth := max 0 w }

/-- `Style.maxHeight` mutator: clamps to non-negative. -/
def maxHeight (st : StyleOptions) (h : Int) : StyleOptions := { st with maxHeight := max 0 h }

/-- `Style.padding` mutator (optional arguments modelled as `Option`). -/
def padding (st : StyleOptions) (top : Int) (right bottom left : Option Int) : StyleOptions :=
  match right with
  | none =>
      { st with paddingTop := top, paddingRight := top, paddingBottom := top, paddingLeft := top }
  | some r =>
      match bottom with
      | none => { st with paddingTop := top, paddingBottom := top,
                          paddingRight := r, paddingLeft := r }
      | some b => { st with paddingTop := top, paddingRight := r, paddingBottom := b,
                            paddingLeft := left.getD r }

/-- `Style.paddingTop` mutator: stores the value unchanged. -/
def paddingTop (st : StyleOptions) (n : Int) : StyleOptions := { st with paddingTop := n }

/-- `Style.paddingRight` mutator: stores the value unchanged. -/
def paddingRight (st : StyleOptions) (n : Int) : StyleOptions := { st with paddingRight := n }

/-- `Style.paddingBottom` mutator: stores the value unchanged. -/
def paddingBottom (st : StyleOptions) (n : Int) : StyleOptions := { st with paddingBottom := n }

/-- `Style.paddingLeft` mutator: stores the value unchanged. -/
def paddingLeft (st : StyleOptions) (n : Int) : StyleOptions := { st with paddingLeft := n }

/-- `Style.margin` mutator (optional arguments modelled as `Option`). -/
def margin (st : StyleOptions) (top : Int) (right bottom left : Option Int) : StyleOptions :=
  match right with
  | none =>
      { st with marginTop := top, marginRight := top, marginBottom := top, marginLeft := top }
  | some r =>
      match bottom with
      | none => { st with marginTop := top, marginBottom := top,
                          marginRight := r, marginLeft := r }
      | some b => { st with marginTop := top, marginRight := r, marginBottom := b,
                            marginLeft := left.getD r }

/-- `Style.marginTop` mutator: stores the value unchanged. -/
def marginTop (st : StyleOptions) (n : Int) : StyleOptions := { st with marginTop := n }

/-- `Style.marginRight` mutator: stores the value unchanged. -/
def marginRight (st : StyleOptions) (n : Int) : StyleOptions := { st with marginRight := n }

/-- `Style.marginBottom` mutator: stores the value unchanged. -/
def marginBottom (st : StyleOptions) (n : Int) : StyleOptions := { st with marginBottom := n }

/-- `Style.marginLeft` mutator: stores the value unchanged. -/
def marginLeft (st : StyleOptions) (n : Int) : StyleOptions := { st with marginLeft := n }

/-- `Style.tabWidth` mutator: stores the value unchanged. -/
def tabWidth (st : StyleOptions) (n : Int) : StyleOptions := { st with tabWidth := n }

/-- `buildStyleSequence` (`src/style.ts`). -/
def buildStyleSequence (opts : StyleOptions) : JStr :=
  let parts : List JStr :=
    (if opts.bold then [[0x31]] else []) ++
    (if opts.faint then [[0x32]] else []) ++
    (if opts.italic then [[0x33]] else []) ++
    (if opts.underline then [[0x34]] else []) ++
    (if opts.blink then [[0x35]] else []) ++
    (if opts.reverse then [[0x37]] else []) ++
    (if opts.strikethrough then [[0x39]] else [])
  let result := if parts.length > 0 then CSI ++ (parts.intersperse [0x3b]).flatten ++ [0x6d] else []
  let result := result ++
    (match opts.foreground with | some c => colorToSequence c true | none => [])
  result ++ (match opts.background with | some c => colorToSequence c false | none => [])

/-- `buildWhitespaceSequence` (`src/style.ts`). -/
def buildWhitespaceSequence (opts : StyleOptions) : JStr :=
  (if opts.reverse then CSI ++ [0x37, 0x6d] else []) ++
  (match opts.background, opts.colorWhitespace with
   | some c, true => colorToSequence c false
   | _, _ => [])

/-- `hasBorder` (`src/style.ts`). -/
def hasBorder (opts : StyleOptions) : Bool :=
  opts.borderTop || opts.borderRight || opts.borderBottom || opts.borderLeft

/-- `applyWidth` (`src/style.ts`). -/
def applyWidth (str : JStr) (w : Int) (align : Rat) (whitespaceSeq : JStr) : JStr :=
  let lines := splitNL str
  let pad : JStr → JStr :=
    if whitespaceSeq ≠ [] then (fun s => whitespaceSeq ++ s ++ RESET) else id
  joinNL (lines.map (fun line =>
    let lineWidth := stringWidth line
    if (lineWidth : Int) ≥ w then line
    else
      let diff := (w - lineWidth).toNat
      if align = PositionLeft then line ++ pad (repeatN [0x20] diff)
      else if align = PositionRight then pad (repeatN [0x20] diff) ++ line
      else
        let l := diff / 2
        let r := diff - l
        pad (repeatN [0x20] l) ++ line ++ pad (repeatN [0x20] r)))

/-- `applyHeight` (`src/style.ts`). -/
def applyHeight (str : JStr) (h : Int) (align : Rat) (whitespaceSeq : JStr) : JStr :=
  let lines := splitNL str
  if (lines.length : Int) ≥ h then str
  else
    let w := maxLineWidth str
    let emptyLine :=
      if whitespaceSeq ≠ [] then whitespaceSeq ++ repeatN [0x20] w ++ RESET
      else repeatN [0x20] w
    let diff := (h - lines.length).toNat
    if align = PositionTop then str ++ [0x0a] ++ joinNL (List.replicate diff emptyLine)
    else if align = PositionBottom then joinNL (List.replicate diff emptyLine) ++ [0x0a] ++ str
    else
      let t := diff / 2
      let b := diff - t
      joinNL (List.replicate t emptyLine) ++ (if t > 0 then [0x0a] else []) ++ str ++
        (if b > 0 then [0x0a] else []) ++ joinNL (List.replicate b emptyLine)

/-- `applyBorder` (`src/style.ts`). -/
def applyBorder (opts : StyleOptions) (str : JStr) : JStr :=
  let border := opts.border
  let lines := splitNL str
  let w := maxLineWidth str
  let borderFg := match opts.borderForeground with | some c => colorToSequence c true | none => []
  let borderBg := match opts.borderBackground with | some c => colorToSequence c false | none => []
  let borderStyle := borderFg ++ borderBg
  let borderReset := if borderStyle ≠ [] then RESET else []
  let result : List JStr :=
    (if opts.borderTop then
      [borderStyle ++ (if opts.borderLeft then border.topLeft else []) ++
        repeatN border.top w ++ (if opts.borderRight then border.topRight else []) ++
        borderReset]
     else []) ++
    lines.map (fun line =>
      (if opts.borderLeft then borderStyle ++ border.left ++ borderReset else []) ++
      padRight line w ++
      (if opts.borderRight then borderStyle ++ border.right ++ borderReset else [])) ++
    (if opts.borderBottom then
      [borderStyle ++ (if opts.borderLeft then border.bottomLeft else []) ++
        repeatN border.bottom w ++ (if opts.borderRight then border.bottomRight else []) ++
        borderReset]
     else [])
  joinNL result

/-- The left/right-margin step of `applyMargin` (`src/style.ts`). -/
def marginSides (opts : StyleOptions) (marginBg marginReset : JStr)
    (result : List JStr) : Option (List JStr) :=
  if opts.marginLeft > 0 ∨ opts.marginRight > 0 then
    (jsRepeat [0x20] opts.marginLeft).bind (fun l =>
      (jsRepeat [0x20] opts.marginRight).bind (fun r =>
        some (result.map (fun line =>
          (marginBg ++ l ++ marginReset) ++ line ++ (marginBg ++ r ++ marginReset)))))
  else some result

/-- The top-margin step of `applyMargin` (`src/style.ts`). -/
def marginTopStep (opts : StyleOptions) (w : Nat) (marginBg marginReset : JStr)
    (result : List JStr) : Option (List JStr) :=
  if opts.marginTop > 0 then
    (jsRepeat [0x20] ((w : Int) + opts.marginLeft + opts.marginRight)).bind (fun e =>
      some (List.replicate opts.marginTop.toNat (marginBg ++ e ++ marginReset) ++ result))
  else some result

/-- The bottom-margin step of `applyMargin` (`src/style.ts`). -/
def marginBottomStep (opts : StyleOptions) (w : Nat) (marginBg marginReset : JStr)
    (result : List JStr) : Option (List JStr) :=
  if opts.marginBottom > 0 then
    (jsRepeat [0x20] ((w : Int) + opts.marginLeft + opts.marginRight)).bind (fun e =>
      some (result ++ List.replicate opts.marginBottom.toNat (marginBg ++ e ++ marginReset)))
  else some result

/-- `applyMargin` (`src/style.ts`); `none` models a thrown `RangeError` from
a negative-count `repeat`. -/
def applyMargin (opts : StyleOptions) (str : JStr) : Option JStr :=
  let lines := splitNL str
  let w := maxLineWidth str
  let marginBg := match opts.marginBackground with | some c => colorToSequence c false | none => []
  let marginReset := if marginBg ≠ [] then RESET else []
  (marginSides opts marginBg marginReset lines).bind (fun r1 =>
    (marginTopStep opts w marginBg marginReset r1).bind (fun r2 =>
      (marginBottomStep opts w marginBg marginReset r2).bind (fun r3 =>
        some (joinNL r3))))

/-- UTF-16 encoding of one code point (what JS string concatenation of a
`for..of` element appends). -/
def encodeCp (cp : Nat) : JStr :=
  if 0x10000 ≤ cp then
    [0xd800 + (cp - 0x10000) / 0x400, 0xdc00 + (cp - 0x10000) % 0x400]
  else [cp]

/-- The per-line column-budget walk of the max-width clamp in `render`
(`src/style.ts`): iterates code points, measures each with `stringWidth`. -/
def clampGo (mw : Int) : Nat → List Nat → JStr
  | _, [] => []
  | w, cp :: rest =>
      let cw := stringWidth (encodeCp cp)
      if (w + cw : Int) > mw then []
      else encodeCp cp ++ clampGo mw (w + cw) rest

/-- One line of the max-width clamp stage of `render` (`src/style.ts`). -/
def maxClampLine (mw : Int) (line : JStr) : JStr :=
  if (stringWidth line : Int) > mw then clampGo mw 0 (codePoints line) else line

def joinSpace (strs : List JStr) : JStr := (strs.intersperse [0x20]).flatten

/-- JavaScript `str.replace(/\t/g, repl)`. -/
def replaceTabs (s : JStr) (repl : JStr) : JStr :=
  s.flatMap (fun c => if c = 0x9 then repl else [c])

/-- JavaScript `str.replace(/\r\n/g, newline)`. -/
def replaceCRLF : JStr → JStr
  | 0x0d :: 0x0a :: s => 0x0a :: replaceCRLF s
  | c :: s => c :: replaceCRLF s
  | [] => []

/-- Stages 1-6 of `Style.render` (`src/style.ts`): preprocess, emphasis
wrap, padding, width/height fit, border.  All these stages are total. -/
def renderPreMargin (opts : StyleOptions) (strs : List JStr) : JStr :=
  let str := joinSpace strs
  let str := match opts.transform with | some f => f str | none => str
  let str :=
    if opts.tabWidth ≥ 0 then
      replaceTabs str (if opts.tabWidth = 0 then [] else repeatN [0x20] opts.tabWidth.toNat)
    else str
  let str := replaceCRLF str
  let str := if opts.inline then str.filter (fun c => c ≠ 0x0a) else str
  let styleSeq := buildStyleSequence opts
  let whitespaceSeq := if opts.colorWhitespace then buildWhitespaceSequence opts else []
  let str :=
    if styleSeq ≠ [] then joinNL ((splitNL str).map (fun line => styleSeq ++ line ++ RESET))
    else str
  let str :=
    if ¬ opts.inline ∧ opts.paddingLeft > 0 then
      let pad :=
        if whitespaceSeq ≠ [] then whitespaceSeq ++ repeatN [0x20] opts.paddingLeft.toNat ++ RESET
        else repeatN [0x20] opts.paddingLeft.toNat
      joinNL ((splitNL str).map (fun line => pad ++ line))
    else str
  let str :=
    if ¬ opts.inline ∧ opts.paddingRight > 0 then
      let pad :=
        if whitespaceSeq ≠ [] then whitespaceSeq ++ repeatN [0x20] opts.paddingRight.toNat ++ RESET
        else repeatN [0x20] opts.paddingRight.toNat
      joinNL ((splitNL str).map (fun line => line ++ pad))
    else str
  let str := if ¬ opts.inline ∧ opts.paddingTop > 0 then
      repeatN [0x0a] opts.paddingTop.toNat ++ str
    else str
  let str := if ¬ opts.inline ∧ opts.paddingBottom > 0 then
      str ++ repeatN [0x0a] opts.paddingBottom.toNat
    else str
  let str := if opts.width > 0 then applyWidth str opts.width opts.alignHorizontal whitespaceSeq
    else str
  let str := if opts.height > 0 then applyHeight str opts.height opts.alignVertical whitespaceSeq
    else str
  if ¬ opts.inline ∧ hasBorder opts then applyBorder opts str else str

/-- The max-clamp stage of `Style.render` (`src/style.ts`): max-width
truncation walk per line, then max-height line drop. -/
def renderMaxClamp (opts : StyleOptions) (str : JStr) : JStr :=
  let str := if opts.maxWidth > 0 then joinNL ((splitNL str).map (maxClampLine opts.maxWidth))
    else str
  if opts.maxHeight > 0 then
    let lines := splitNL str
    if (lines.length : Int) > opts.maxHeight then joinNL (lines.take opts.maxHeight.toNat)
    else str
  else str

/-- `Style.render` (`src/style.ts`); `none` models a thrown exception. -/
def render (opts : StyleOptions) (strs : List JStr) : Option JStr :=
  let str := renderPreMargin opts strs
  (if ¬ opts.inline then applyMargin opts str else some str).bind
    (fun str => some (renderMaxClamp opts str))

end Style

example : stringWidth [104, 101, 108, 108, 111] = 5 := by decide
example : stringWidth [0x1b, 0x5b, 0x33, 0x31, 109, 104, 105, 0x1b, 0x5b, 109] = 2 := by decide
example : stringWidth [0x4f60, 0x597d] = 4 := by decide
example : stripAnsi [0x1b, 0x5b, 49, 109, 104, 105, 0x1b, 0x5b, 109] = [104, 105] := by decide
example : truncate [104, 101, 108, 108, 111] 10 [] = [104, 101, 108, 108, 111] := by decide
example : truncate [104, 101, 108, 108, 111, 32, 119, 111, 114, 108, 100] 5 [] =
    [104, 101, 108, 108, 111] := by decide
example : truncate [104, 101, 108, 108, 111, 32, 119, 111, 114, 108, 100] 8 [46, 46, 46] =
    [104, 101, 108, 108, 111, 46, 46, 46] := by decide
example : truncate [104, 105] 0 [] = [] := by decide
example : lineCount [] = 0 := by decide
example : maxLineWidth [104, 105, 0x0a, 104, 101, 108, 108, 111] = 5 := by decide
example : padLeft [104, 105] 5 = [32, 32, 32, 104, 105] := by decide
example : center [104, 105] 7 = [32, 32, 104, 105, 32, 32, 32] := by decide

/-! ### Basic facts about line splitting and joining -/

theorem splitNL_ne_nil (s : JStr) : splitNL s ≠ [] := by
  cases s with
  | nil => simp [splitNL]
  | cons c t =>
      simp only [splitNL]
      split
      · simp
      · cases h : splitNL t <;> simp

theorem splitNL_cons_nl (s : JStr) : splitNL (0x0a :: s) = [] :: splitNL s := by
  simp [splitNL]

theorem splitNL_cons_not_nl {c : Nat} (hc : c ≠ 0x0a) (s : JStr) :
    splitNL (c :: s) = (c :: (splitNL s).headI) :: (splitNL s).tail := by
  simp only [splitNL, if_neg hc]
  cases h : splitNL s with
  | nil => exact absurd h (splitNL_ne_nil s)
  | cons h0 rest => simp

theorem headI_mem_of_ne_nil {l : List JStr} (h : l ≠ []) : l.headI ∈ l := by
  cases l with
  | nil => exact absurd rfl h
  | cons a t => simp

theorem mem_of_mem_splitNL {c : Nat} {l s : JStr} (hl : l ∈ splitNL s) (hc : c ∈ l) : c ∈ s := by
  induction s generalizing l with
  | nil =>
      simp [splitNL] at hl
      subst hl
      simp at hc
  | cons d t ih =>
      by_cases hd : d = 0x0a
      · subst hd
        rw [splitNL_cons_nl] at hl
        rcases List.mem_cons.1 hl with rfl | hl
        · simp at hc
        · exact List.mem_cons_of_mem _ (ih hl hc)
      · rw [splitNL_cons_not_nl hd] at hl
        rcases List.mem_cons.1 hl with rfl | hl
        · rcases List.mem_cons.1 hc with rfl | hc
          · exact List.mem_cons_self _ _
          · exact List.mem_cons_of_mem _
              (ih (headI_mem_of_ne_nil (splitNL_ne_nil t)) hc)
        · exact List.mem_cons_of_mem _ (ih (List.mem_of_mem_tail hl) hc)

theorem no_nl_of_mem_splitNL {l s : JStr} (hl : l ∈ splitNL s) : ∀ c ∈ l, c ≠ 0x0a := by
  induction s generalizing l with
  | nil =>
      simp [splitNL] at hl
      subst hl
      simp
  | cons d t ih =>
      by_cases hd : d = 0x0a
      · subst hd
        rw [splitNL_cons_nl] at hl
        rcases List.mem_cons.1 hl with rfl | hl
        · simp
        · exact ih hl
      · rw [splitNL_cons_not_nl hd] at hl
        rcases List.mem_cons.1 hl with rfl | hl
        · intro c hc
          rcases List.mem_cons.1 hc with rfl | hc
          · exact hd
          · exact ih (headI_mem_of_ne_nil (splitNL_ne_nil t)) c hc
        · exact ih (List.mem_of_mem_tail hl)

theorem splitNL_append_nl (x y : JStr) :
    splitNL (x ++ 0x0a :: y) = splitNL x ++ splitNL y := by
  induction x with
  | nil => simp [splitNL_cons_nl, splitNL]
  | cons c t ih =>
      by_cases hc : c = 0x0a
      · subst hc
        rw [List.cons_append, splitNL_cons_nl, splitNL_cons_nl, ih, List.cons_append]
      · rw [List.cons_append, splitNL_cons_not_nl hc, splitNL_cons_not_nl hc, ih]
        cases h : splitNL t with
        | nil => exact absurd h (splitNL_ne_nil t)
        | cons h0 rest => simp

theorem splitNL_no_nl {s : JStr} (h : ∀ c ∈ s, c ≠ 0x0a) : splitNL s = [s] := by
  induction s with
  | nil => simp [splitNL]
  | cons c t ih =>
      rw [splitNL_cons_not_nl (h c (List.mem_cons_self _ _)),
        ih (fun d hd => h d (List.mem_cons_of_mem _ hd))]
      simp

theorem joinNL_cons_cons (l : JStr) (l2 : JStr) (ls : List JStr) :
    joinNL (l :: l2 :: ls) = l ++ 0x0a :: joinNL (l2 :: ls) := by
  simp [joinNL, List.intersperse]

theorem splitNL_joinNL {ls : List JStr} (hne : ls ≠ [])
    (h : ∀ l ∈ ls, ∀ c ∈ l, c ≠ 0x0a) : splitNL (joinNL ls) = ls := by
  induction ls with
  | nil => exact absurd rfl hne
  | cons l rest ih =>
      cases rest with
      | nil => simpa [joinNL] using splitNL_no_nl (h l (List.mem_cons_self _ _))
      | cons l2 ls2 =>
          rw [joinNL_cons_cons, splitNL_append_nl,
            splitNL_no_nl (h l (List.mem_cons_self _ _)),
            ih (by simp) (fun m hm => h m (List.mem_cons_of_mem _ hm))]
          simp

theorem joinNL_splitNL (s : JStr) : joinNL (splitNL s) = s := by
  induction s with
  | nil => simp [splitNL, joinNL]
  | cons c t ih =>
      by_cases hc : c = 0x0a
      · subst hc
        rw [splitNL_cons_nl]
        cases h : splitNL t with
        | nil => exact absurd h (splitNL_ne_nil t)
        | cons h0 rest =>
            rw [h] at ih
            rw [joinNL_cons_cons, ← ih]
            simp
      · rw [splitNL_cons_not_nl hc]
        cases h : splitNL t with
        | nil => exact absurd h (splitNL_ne_nil t)
        | cons h0 rest =>
            rw [h] at ih
            cases rest with
            | nil => simpa [joinNL] using congrArg (c :: ·) ih
            | cons l2 ls2 =>
                simp only [List.headI, List.tail_cons]
                rw [joinNL_cons_cons, List.cons_append, ← joinNL_cons_cons, ih]

theorem getHeight_joinNL {ls : List JStr} (hne : ls ≠ [])
    (h : ∀ l ∈ ls, ∀ c ∈ l, c ≠ 0x0a) : getHeight (joinNL ls) = ls.length := by
  rw [getHeight, splitNL_joinNL hne h]

theorem repeatN_singleton (c n : Nat) : repeatN [c] n = List.replicate n c := by
  induction n with
  | zero => simp [repeatN]
  | succ k ih => simp only [repeatN, List.replicate] at *; simp [ih]

theorem joinNL_pair (x y : JStr) : joinNL [x, y] = x ++ 0x0a :: y := by
  rw [joinNL_cons_cons]
  simp [joinNL]

/-- C1 C5 C6 C10: a line only extended by space padding on each side. -/
def padExt (orig out : JStr) : Prop :=
  ∃ l r, out = List.replicate l 0x20 ++ orig ++ List.replicate r 0x20

theorem flatten_replicate_singleton (n c : Nat) :
    (List.replicate n ([c] : JStr)).flatten = List.replicate n c := repeatN_singleton c n

theorem padExt_refl (l : JStr) : padExt l l := ⟨0, 0, by simp⟩

theorem padExt_padRight_space (line : JStr) (w : Nat) : padExt line (padRight line w) := by
  by_cases h : stringWidth line ≥ w
  · simp only [padRight, if_pos h]
    exact padExt_refl line
  · simp only [padRight, if_neg h]
    exact ⟨0, w - stringWidth line, by rw [flatten_replicate_singleton]; simp⟩

theorem padExt_jvPadLine (pos : Rat) (maxW : Nat) (line : JStr) :
    padExt line (jvPadLine pos maxW line) := by
  by_cases h1 : stringWidth line = maxW
  · simp only [jvPadLine, if_pos h1]
    exact padExt_refl line
  · by_cases h2 : pos ≤ 0
    · simp only [jvPadLine, if_neg h1, if_pos h2]
      exact padExt_padRight_space line maxW
    · by_cases h3 : (1 : Rat) ≤ pos
      · simp only [jvPadLine, if_neg h1, if_neg h2, if_pos h3]
        exact ⟨maxW - stringWidth line, 0, by rw [repeatN_singleton]; simp⟩
      · simp only [jvPadLine, if_neg h1, if_neg h2, if_neg h3]
        exact ⟨(maxW - stringWidth line) / 2,
          (maxW - stringWidth line) - (maxW - stringWidth line) / 2,
          by rw [repeatN_singleton, repeatN_singleton]⟩

theorem no_nl_padExt {orig out : JStr} (hp : padExt orig out)
    (h : ∀ c ∈ orig, c ≠ 0x0a) : ∀ c ∈ out, c ≠ 0x0a := by
  obtain ⟨l, r, rfl⟩ := hp
  intro c hc
  simp only [List.mem_append] at hc
  rcases hc with (hc | hc) | hc
  · rcases List.eq_of_mem_replicate hc with rfl; decide
  · exact h c hc
  · rcases List.eq_of_mem_replicate hc with rfl; decide

theorem splitNL_jvBlock (pos : Rat) (maxW : Nat) (s : JStr) :
    splitNL (joinNL ((splitNL s).map (jvPadLine pos maxW))) =
      (splitNL s).map (jvPadLine pos maxW) := by
  refine splitNL_joinNL (by simp [splitNL_ne_nil]) ?_
  intro l hl
  obtain ⟨line, hline, rfl⟩ := List.mem_map.1 hl
  exact no_nl_padExt (padExt_jvPadLine pos maxW line) (no_nl_of_mem_splitNL hline)

theorem joinVertical_pair (pos : Rat) (a b : JStr) :
    joinVertical pos [a, b] =
      joinNL [joinNL ((splitNL a).map
                (jvPadLine pos ((([a, b] : List JStr).map maxLineWidth).foldl max 0))),
              joinNL ((splitNL b).map
                (jvPadLine pos ((([a, b] : List JStr).map maxLineWidth).foldl max 0)))] := by
  rfl

/-- C10: the lines of `joinVertical pos [a, b]` are exactly the lines of `a`
followed by the lines of `b`, each only extended with space padding, and the
height of the result is the sum of the heights. -/
theorem C10_joinVertical_stacks (pos : Rat) (a b : JStr) :
    getHeight (joinVertical pos [a, b]) = getHeight a + getHeight b ∧
    List.Forall₂ padExt (splitNL a ++ splitNL b) (splitNL (joinVertical pos [a, b])) := by
  rw [joinVertical_pair, joinNL_pair, splitNL_append_nl, splitNL_jvBlock, splitNL_jvBlock]
  constructor
  · simp [getHeight, splitNL_append_nl, splitNL_jvBlock]
  · rw [← List.map_append]
    rw [List.forall₂_map_right_iff]
    exact (List.forall₂_same).2 (fun x _ => padExt_jvPadLine _ _ x)

/-- C7: `lineCount` of the empty string is 0, `getHeight` of the empty string
is 1, and the two operations agree on every non-empty string. -/
theorem C7_lineCount_vs_getHeight :
    lineCount [] = 0 ∧ getHeight [] = 1 ∧
    ∀ s : JStr, s ≠ [] → lineCount s = getHeight s := by
  refine ⟨by decide, by decide, fun s hs => ?_⟩
  rw [lineCount, if_neg hs, getHeight]

/-- Witness for C7 at the non-empty string "h". -/
theorem C7_lineCount_vs_getHeight_witness : lineCount [104] = getHeight [104] :=
  C7_lineCount_vs_getHeight.2.2 [104] (by decide)

/-! ### C2: configuration clamping and render totality -/

theorem jsRepeat_eq_some (x : JStr) (n : Int) (h : 0 ≤ n) :
    jsRepeat x n = some (List.replicate n.toNat x).flatten := by
  rw [jsRepeat, if_neg (by omega)]

theorem isSome_bind_k {α β : Type} {o : Option α} {k : α → Option β}
    (h : o.isSome) (hk : ∀ a, (k a).isSome) : (o >>= k).isSome := by
  cases o with
  | none => simp at h
  | some a => exact hk a

theorem marginSides_isSome (opts : StyleOptions) (bg rs : JStr) (res : List JStr)
    (hl : 0 ≤ opts.marginLeft) (hr : 0 ≤ opts.marginRight) :
    (Style.marginSides opts bg rs res).isSome := by
  unfold Style.marginSides
  split
  · rw [jsRepeat_eq_some _ _ hl, jsRepeat_eq_some _ _ hr]
    rfl
  · rfl

theorem marginTopStep_isSome (opts : StyleOptions) (w : Nat) (bg rs : JStr) (res : List JStr)
    (hl : 0 ≤ opts.marginLeft) (hr : 0 ≤ opts.marginRight) :
    (Style.marginTopStep opts w bg rs res).isSome := by
  unfold Style.marginTopStep
  split
  · rw [jsRepeat_eq_some _ _ (by positivity)]
    rfl
  · rfl

theorem marginBottomStep_isSome (opts : StyleOptions) (w : Nat) (bg rs : JStr) (res : List JStr)
    (hl : 0 ≤ opts.marginLeft) (hr : 0 ≤ opts.marginRight) :
    (Style.marginBottomStep opts w bg rs res).isSome := by
  unfold Style.marginBottomStep
  split
  · rw [jsRepeat_eq_some _ _ (by positivity)]
    rfl
  · rfl

theorem isSome_obind {α β : Type} {o : Option α} {k : α → Option β}
    (h : o.isSome) (hk : ∀ a, (k a).isSome) : (o.bind k).isSome := by
  cases o with
  | none => simp at h
  | some a => exact hk a

theorem applyMargin_isSome (opts : StyleOptions) (s : JStr)
    (hl : 0 ≤ opts.marginLeft) (hr : 0 ≤ opts.marginRight) :
    (Style.applyMargin opts s).isSome := by
  unfold Style.applyMargin
  refine isSome_obind (marginSides_isSome _ _ _ _ hl hr) (fun r1 => ?_)
  refine isSome_obind (marginTopStep_isSome _ _ _ _ _ hl hr) (fun r2 => ?_)
  exact isSome_obind (marginBottomStep_isSome _ _ _ _ _ hl hr) (fun r3 => rfl)

theorem render_isSome (opts : StyleOptions) (strs : List JStr)
    (hl : 0 ≤ opts.marginLeft) (hr : 0 ≤ opts.marginRight) :
    (Style.render opts strs).isSome := by
  show (((if ¬ opts.inline then Style.applyMargin opts (Style.renderPreMargin opts strs)
      else some (Style.renderPreMargin opts strs)).bind
      (fun str => some (Style.renderMaxClamp opts str))).isSome)
  refine isSome_obind ?_ (fun a => rfl)
  split
  · exact applyMargin_isSome _ _ hl hr
  · rfl

/-- C2 counterexample: the `marginLeft` mutator called with -1 stores -1
(not 0), and `render` raises (returns `none`, modelling the `RangeError`
thrown by `' '.repeat(-1)`) when `marginLeft = -1` and `marginRight = 1`. -/
theorem C2_no_clamp_counterexample :
    (Style.marginLeft defaultStyle (-1)).marginLeft = -1 ∧
    Style.render (Style.marginRight (Style.marginLeft defaultStyle (-1)) 1) [[120]] = none := by
  constructor
  · rfl
  · decide

/-- C2 amended: only the `width`, `height`, `maxWidth` and `maxHeight`
mutators clamp negative inputs to 0; the padding, margin and tabWidth
mutators store their argument unchanged, and `render` never raises provided
the configured `marginLeft` and `marginRight` are non-negative. -/
theorem C2_clamping_amended :
    (∀ (st : StyleOptions) (n : Int),
      (Style.width st n).width = max 0 n ∧
      (Style.height st n).height = max 0 n ∧
      (Style.maxWidth st n).maxWidth = max 0 n ∧
      (Style.maxHeight st n).maxHeight = max 0 n ∧
      (Style.paddingLeft st n).paddingLeft = n ∧
      (Style.marginLeft st n).marginLeft = n ∧
      (Style.tabWidth st n).tabWidth = n) ∧
    (∀ (st : StyleOptions) (strs : List JStr),
      0 ≤ st.marginLeft → 0 ≤ st.marginRight → (Style.render st strs).isSome) :=
  ⟨fun _ _ => ⟨rfl, rfl, rfl, rfl, rfl, rfl, rfl⟩,
   fun st strs hl hr => render_isSome st strs hl hr⟩

/-- Witness for C2 amended: the default configuration renders "hi". -/
theorem C2_clamping_amended_witness :
    (Style.render defaultStyle [[104, 105]]).isSome :=
  C2_clamping_amended.2 defaultStyle [[104, 105]] (by decide) (by decide)

/-! ### C5: place -/

theorem mapM_eq_some_map {α β : Type} (f : α → Option β) (g : α → β) (l : List α)
    (h : ∀ a ∈ l, f a = some (g a)) : l.mapM f = some (l.map g) := by
  induction l with
  | nil => rfl
  | cons a t ih =>
      rw [List.mapM_cons, h a (List.mem_cons_self _ _),
        ih (fun x hx => h x (List.mem_cons_of_mem _ hx))]
      rfl

theorem getD_mem_of_lt {A : Type} (l : List A) (n : Nat) (d : A) (h : n < l.length) :
    l.getD n d ∈ l := by
  induction l generalizing n with
  | nil => simp at h
  | cons a t ih =>
      cases n with
      | zero => simp [List.getD]
      | succ k =>
          rw [List.getD_cons_succ]
          exact List.mem_cons_of_mem _ (ih k (by simpa using h))

/-- The background-filled row description used in the C5 statement. -/
def placeRowSpec (width : Int) (startX startY : Int) (contentLines : List JStr)
    (contentWidth : Nat) (b : Nat) (y : Nat) : JStr :=
  if startY ≤ (y : Int) ∧ (y : Int) < startY + contentLines.length then
    List.replicate startX.toNat b ++
      padRight (contentLines.getD ((y : Int) - startY).toNat []) contentWidth ++
      List.replicate (max 0 (width - startX - contentWidth)).toNat b
  else List.replicate width.toNat b

theorem placeRow_eq_spec (width : Int) (startX startY : Int) (contentLines : List JStr)
    (contentWidth : Nat) (b : Nat) (y : Nat) (hw : 0 ≤ width) (hx : 0 ≤ startX) :
    placeRow width startX startY contentLines contentWidth [b] y =
      some (placeRowSpec width startX startY contentLines contentWidth b y) := by
  unfold placeRow placeRowSpec
  split
  · rw [jsRepeat_eq_some _ _ hx, jsRepeat_eq_some _ _ (le_max_left _ _)]
    simp [flatten_replicate_singleton]
  · rw [jsRepeat_eq_some _ _ hw]
    simp [flatten_replicate_singleton]

/-- C5 counterexample: with `width = 1`, `hPos = 1` and content "abc" of
width 3, `startX = -2` and `place` raises (`' '.repeat(-2)` throws), instead
of emitting one described output line. -/
theorem C5_place_counterexample : place 1 1 1 0 [97, 98, 99] [0x20] = none := by decide

/-- C5 amended: whenever the computed `startX` is non-negative (in particular
whenever the content is no wider than the canvas or `hPos <= 0`), and the
background is a single non-newline character, `place` succeeds and emits
exactly `height` rows: background fill outside the vertical content band,
and `startX` background columns, the right-padded content line, and the
remaining `max 0 (width-startX-contentWidth)` background columns inside it. -/
theorem C5_place_amended (w h : Int) (hp vp : Rat) (content : JStr) (b : Nat)
    (hw : 0 ≤ w) (hb : b ≠ 0x0a)
    (hx : 0 ≤ placeStartX w hp (maxLineWidth content)) :
    place w h hp vp content [b] =
      some (joinNL ((List.range h.toNat).map
        (placeRowSpec w (placeStartX w hp (maxLineWidth content))
          (placeStartY h vp (splitNL content).length) (splitNL content)
          (maxLineWidth content) b))) ∧
    ((List.range h.toNat).map
        (placeRowSpec w (placeStartX w hp (maxLineWidth content))
          (placeStartY h vp (splitNL content).length) (splitNL content)
          (maxLineWidth content) b)).length = h.toNat ∧
    (0 < h →
      getHeight (joinNL ((List.range h.toNat).map
        (placeRowSpec w (placeStartX w hp (maxLineWidth content))
          (placeStartY h vp (splitNL content).length) (splitNL content)
          (maxLineWidth content) b))) = h.toNat) := by
  refine ⟨?_, by simp, ?_⟩
  · unfold place
    dsimp only
    rw [mapM_eq_some_map
      (placeRow w (placeStartX w hp (maxLineWidth content))
        (placeStartY h vp (splitNL content).length) (splitNL content) (maxLineWidth content) [b])
      (placeRowSpec w (placeStartX w hp (maxLineWidth content))
        (placeStartY h vp (splitNL content).length) (splitNL content) (maxLineWidth content) b)
      (List.range h.toNat)
      (fun y _ => placeRow_eq_spec _ _ _ _ _ _ _ hw hx)]
    rfl
  · intro hpos
    have hne : (List.range h.toNat).map
        (placeRowSpec w (placeStartX w hp (maxLineWidth content))
          (placeStartY h vp (splitNL content).length) (splitNL content)
          (maxLineWidth content) b) ≠ [] := by
      intro hmap
      have h1 := congrArg List.length hmap
      simp at h1
      omega
    have hnl : ∀ l ∈ (List.range h.toNat).map
        (placeRowSpec w (placeStartX w hp (maxLineWidth content))
          (placeStartY h vp (splitNL content).length) (splitNL content)
          (maxLineWidth content) b), ∀ c ∈ l, c ≠ 0x0a := ?_
    · rw [getHeight_joinNL hne hnl]
      simp
    intro l hl
    obtain ⟨y, _, rfl⟩ := List.mem_map.1 hl
    unfold placeRowSpec
    split
    · intro c hc
      simp only [List.mem_append] at hc
      rcases hc with (hc | hc) | hc
      · rcases List.eq_of_mem_replicate hc with rfl; exact hb
      · rcases padExt_padRight_space ((splitNL content).getD
          (((y : Int)) - placeStartY h vp (splitNL content).length).toNat [])
          (maxLineWidth content) with ⟨pl, pr, hpad⟩
        rw [hpad] at hc
        simp only [List.mem_append] at hc
        rcases hc with (hc | hc) | hc
        · rcases List.eq_of_mem_replicate hc with rfl; decide
        · by_cases hy : (((y : Int)) - placeStartY h vp (splitNL content).length).toNat <
              (splitNL content).length
          · exact no_nl_of_mem_splitNL (getD_mem_of_lt _ _ _ hy) c hc
          · rw [List.getD_eq_default _ _ (by omega)] at hc
            simp at hc
        · rcases List.eq_of_mem_replicate hc with rfl; decide
      · rcases List.eq_of_mem_replicate hc with rfl; exact hb
    · intro c hc
      rcases List.eq_of_mem_replicate hc with rfl; exact hb

/-- Witness for C5 amended: `place(5, 3, 0, 0, "X")` succeeds with 3 rows. -/
theorem C5_place_amended_witness :
    place 5 3 0 0 [88] [0x20] =
      some (joinNL ((List.range (3 : Int).toNat).map
        (placeRowSpec 5 (placeStartX 5 0 (maxLineWidth [88]))
          (placeStartY 3 0 (splitNL [88]).length) (splitNL [88])
          (maxLineWidth [88]) 0x20))) :=
  (C5_place_amended 5 3 0 0 [88] 0x20 (by decide) (by decide) (by decide)).1

/-! ### C4: the render max-clamp stage vs atomic truncation -/

/-- A plain UTF-16 code unit: printable-ish, no ESC/CSI introducers, not a
surrogate half, and in the 16-bit code-unit range. -/
def plainChar (c : Nat) : Prop :=
  c ≠ 0x1b ∧ c ≠ 0x9b ∧ ¬(0xd800 ≤ c ∧ c ≤ 0xdfff) ∧ c < 0x10000

/-- A string of plain code units (control-free input). -/
def plainStr (s : JStr) : Prop := ∀ c ∈ s, plainChar c

instance : DecidablePred plainChar := fun c => by unfold plainChar; infer_instance

instance (s : JStr) : Decidable (plainStr s) := by unfold plainStr; infer_instance

theorem contains_eq_false_of_not_mem {a : Nat} {l : List Nat} (h : a ∉ l) :
    l.contains a = false := by
  simpa using h

theorem stripAnsi_of_no_esc {s : JStr} (h1 : (0x1b : Nat) ∉ s) (h9 : (0x9b : Nat) ∉ s) :
    stripAnsi s = s := by
  rw [stripAnsi, if_pos]
  constructor <;> simp [contains_eq_false_of_not_mem, h1, h9]

theorem codePoints_of_no_surrogate {s : JStr}
    (h : ∀ c ∈ s, ¬(0xd800 ≤ c ∧ c ≤ 0xdbff)) : codePoints s = s := by
  induction s with
  | nil => rfl
  | cons c t ih =>
      cases t with
      | nil => rfl
      | cons c2 t2 =>
          rw [show codePoints (c :: c2 :: t2) =
            if (0xd800 ≤ c ∧ c ≤ 0xdbff) ∧ (0xdc00 ≤ c2 ∧ c2 ≤ 0xdfff) then
              (0x10000 + (c - 0xd800) * 0x400 + (c2 - 0xdc00)) :: codePoints t2
            else c :: codePoints (c2 :: t2) from rfl]
          rw [if_neg (by intro hx; exact h c (List.mem_cons_self _ _) hx.1)]
          rw [ih (fun d hd => h d (List.mem_cons_of_mem _ hd))]

theorem stringWidth_of_plain {s : JStr} (h : plainStr s) :
    stringWidth s = (s.map codePointWidth).sum := by
  cases hs : s with
  | nil => rfl
  | cons c t =>
      rw [stringWidth, if_neg (by simp), ← hs,
        stripAnsi_of_no_esc (fun hm => (h _ hm).1 rfl) (fun hm => (h _ hm).2.1 rfl),
        codePoints_of_no_surrogate (fun d hd hx => (h d hd).2.2.1 ⟨hx.1, le_trans hx.2 (by omega)⟩)]

theorem stringWidth_single_plain {c : Nat} (h : plainChar c) :
    stringWidth [c] = codePointWidth c := by
  rw [stringWidth_of_plain (fun d hd => by rcases List.mem_singleton.1 hd with rfl; exact h)]
  simp

theorem encodeCp_plain {c : Nat} (h : plainChar c) : Style.encodeCp c = [c] := by
  have := h.2.2.2
  rw [Style.encodeCp, if_neg (by omega)]

theorem clampGo_eq_truncGo {mw : Int} (hmw : 0 ≤ mw) :
    ∀ (s : JStr), plainStr s → ∀ (w : Nat) (buf : JStr),
      Style.clampGo mw w s = (truncGo mw.toNat w .ground buf s).1 := by
  intro s
  induction s with
  | nil => intro _ w buf; rfl
  | cons c t ih =>
      intro hp w buf
      have hc := hp c (List.mem_cons_self _ _)
      have ht : plainStr t := fun d hd => hp d (List.mem_cons_of_mem _ hd)
      rw [show truncGo mw.toNat w .ground buf (c :: t) =
        if c = 0x1b then truncGo mw.toNat w .escape [c] t
        else if c = 0x9b then truncGo mw.toNat w .csiEntry [c] t
        else
          if w + codePointWidth c > mw.toNat then ([], true)
          else ((c :: (truncGo mw.toNat (w + codePointWidth c) .ground buf t).1),
            (truncGo mw.toNat (w + codePointWidth c) .ground buf t).2) from rfl]
      rw [if_neg hc.1, if_neg hc.2.1]
      rw [show Style.clampGo mw w (c :: t) =
        (if ((w + stringWidth (Style.encodeCp c) : Nat) : Int) > mw then []
         else Style.encodeCp c ++ Style.clampGo mw (w + stringWidth (Style.encodeCp c)) t)
        from rfl]
      rw [encodeCp_plain hc, stringWidth_single_plain hc]
      by_cases hbudget : w + codePointWidth c > mw.toNat
      · rw [if_pos (by push_cast; omega), if_pos hbudget]
      · rw [if_neg (by push_cast; omega), if_neg hbudget]
        rw [ih ht (w + codePointWidth c) buf]
        rfl

/-- C4 counterexample: with `maxWidth = 3` and input `"\x1b[31mabcdef"`,
`render`'s max-clamp emits `"\x1b[31"` — a split CSI sequence whose
parameter bytes were counted as columns — which differs from the atomic
truncation `truncate(line, 3) = "\x1b[31mabc"`. -/
theorem C4_clamp_splits_csi_counterexample :
    Style.render { defaultStyle with maxWidth := 3 }
        [[0x1b, 0x5b, 0x33, 0x31, 0x6d, 97, 98, 99, 100, 101, 102]] =
      some [0x1b, 0x5b, 0x33, 0x31] ∧
    truncate [0x1b, 0x5b, 0x33, 0x31, 0x6d, 97, 98, 99, 100, 101, 102] 3 [] =
      [0x1b, 0x5b, 0x33, 0x31, 0x6d, 97, 98, 99] ∧
    ([0x1b, 0x5b, 0x33, 0x31] : JStr) ≠ [0x1b, 0x5b, 0x33, 0x31, 0x6d, 97, 98, 99] := by
  refine ⟨by decide, by decide, by decide⟩

/-- C4 amended: `render`'s max-clamp stage (`maxClampLine`, applied to every
line when `maxWidth > 0`) agrees with the atomic `truncate` only on
control-free lines; there each output line is the input line truncated to at
most `maxWidth` columns. -/
theorem stringWidth_nil : stringWidth ([] : JStr) = 0 := rfl

theorem C4_clamp_amended (mw : Int) (line : JStr) (hmw : 0 < mw) (hp : plainStr line) :
    Style.maxClampLine mw line = truncate line mw [] := by
  by_cases hguard : (stringWidth line : Int) > mw
  · have hL : Style.maxClampLine mw line = Style.clampGo mw 0 (codePoints line) := by
      rw [Style.maxClampLine, if_pos hguard]
    have hR : truncate line mw [] = (truncGo mw.toNat 0 .ground [] line).1 := by
      simp only [truncate, stringWidth_nil]
      rw [if_neg (by omega), if_neg (by omega)]
      rw [if_neg (by push_cast; omega)]
      simp
    rw [hL, hR,
      codePoints_of_no_surrogate
        (fun d hd hx => (hp d hd).2.2.1 ⟨hx.1, le_trans hx.2 (by omega)⟩),
      clampGo_eq_truncGo (by omega) line hp 0 []]
  · have hL : Style.maxClampLine mw line = line := by
      rw [Style.maxClampLine, if_neg hguard]
    have hR : truncate line mw [] = line := by
      rw [truncate, if_neg (by omega)]
      rw [if_pos (by omega)]
    rw [hL, hR]

/-- Witness for C4 amended at `maxWidth = 2`, line "hij". -/
theorem C4_clamp_amended_witness :
    Style.maxClampLine 2 [104, 105, 106] = truncate [104, 105, 106] 2 [] :=
  C4_clamp_amended 2 [104, 105, 106] (by decide) (by decide)

/-! ### C6: joinHorizontal size laws -/

theorem plainStr_append {x y : JStr} (hx : plainStr x) (hy : plainStr y) :
    plainStr (x ++ y) := by
  intro c hc
  rcases List.mem_append.1 hc with h | h
  exacts [hx c h, hy c h]

theorem stringWidth_append_plain {x y : JStr} (hx : plainStr x) (hy : plainStr y) :
    stringWidth (x ++ y) = stringWidth x + stringWidth y := by
  rw [stringWidth_of_plain (plainStr_append hx hy), stringWidth_of_plain hx,
    stringWidth_of_plain hy]
  simp

theorem plainStr_replicate_space (n : Nat) : plainStr (List.replicate n 0x20) := by
  intro c hc
  rcases List.eq_of_mem_replicate hc with rfl
  decide

theorem stringWidth_replicate_space (n : Nat) :
    stringWidth (List.replicate n 0x20) = n := by
  rw [stringWidth_of_plain (plainStr_replicate_space n), List.map_replicate,
    show codePointWidth 0x20 = 1 from by decide]
  simp

theorem padRight_width_plain {l : JStr} {w : Nat} (hp : plainStr l)
    (hw : stringWidth l ≤ w) : stringWidth (padRight l w) = w := by
  by_cases h : stringWidth l ≥ w
  · simp only [padRight, if_pos h]
    omega
  · simp only [padRight, if_neg h, flatten_replicate_singleton]
    rw [stringWidth_append_plain hp (plainStr_replicate_space _),
      stringWidth_replicate_space]
    omega

theorem plainStr_padRight {l : JStr} {w : Nat} (hp : plainStr l) :
    plainStr (padRight l w) := by
  obtain ⟨pl, pr, hpad⟩ := padExt_padRight_space l w
  rw [hpad]
  intro c hc
  simp only [List.mem_append] at hc
  rcases hc with (hc | hc) | hc
  · rcases List.eq_of_mem_replicate hc with rfl; decide
  · exact hp c hc
  · rcases List.eq_of_mem_replicate hc with rfl; decide

theorem foldl_max_init_le (f : JStr → Nat) (ls : List JStr) (a : Nat) :
    a ≤ ls.foldl (fun m l => max m (f l)) a := by
  induction ls generalizing a with
  | nil => exact le_refl a
  | cons x t ih => exact le_trans (le_max_left a (f x)) (ih (max a (f x)))

theorem le_foldl_max (f : JStr → Nat) {x : JStr} {ls : List JStr} (hx : x ∈ ls) (a : Nat) :
    f x ≤ ls.foldl (fun m l => max m (f l)) a := by
  induction ls generalizing a with
  | nil => simp at hx
  | cons y t ih =>
      rcases List.mem_cons.1 hx with rfl | hx
      · exact le_trans (le_max_right a (f x)) (foldl_max_init_le f t _)
      · exact ih hx _

theorem foldl_max_const (f : JStr → Nat) {W : Nat} {ls : List JStr}
    (h : ∀ l ∈ ls, f l = W) (hne : ls ≠ []) (a : Nat) :
    ls.foldl (fun m l => max m (f l)) a = max a W := by
  induction ls generalizing a with
  | nil => exact absurd rfl hne
  | cons x t ih =>
      cases t with
      | nil => simp [List.foldl, h x (List.mem_cons_self _ _)]
      | cons y t2 =>
          rw [List.foldl_cons, h x (List.mem_cons_self _ _),
            ih (fun l hl => h l (List.mem_cons_of_mem _ hl)) (by simp) (max a W)]
          rw [max_assoc, max_self]

theorem stringWidth_le_maxLineWidth {l s : JStr} (hl : l ∈ splitNL s) :
    stringWidth l ≤ maxLineWidth s := le_foldl_max stringWidth hl 0

theorem maxLineWidth_const_rows {rows : List JStr} {W : Nat} (hne : rows ≠ [])
    (hnl : ∀ l ∈ rows, ∀ c ∈ l, c ≠ 0x0a) (hW : ∀ r ∈ rows, stringWidth r = W) :
    maxLineWidth (joinNL rows) = W := by
  rw [maxLineWidth, splitNL_joinNL hne hnl, foldl_max_const stringWidth hW hne 0]
  simp

theorem jhAlign_length {pos : Rat} {mh : Nat} {lines : List JStr} {w : Nat}
    (h : lines.length ≤ mh) : (jhAlign pos mh lines w).length = mh := by
  unfold jhAlign
  split_ifs <;> (try simp) <;> omega

theorem jhAlign_mem {pos : Rat} {mh : Nat} {lines : List JStr} {w : Nat} {l : JStr}
    (hl : l ∈ jhAlign pos mh lines w) : l ∈ lines ∨ l = List.replicate w 0x20 := by
  unfold jhAlign at hl
  rw [repeatN_singleton] at hl
  split_ifs at hl
  · exact Or.inl hl
  · rcases List.mem_append.1 hl with h | h
    · exact Or.inl h
    · exact Or.inr (List.eq_of_mem_replicate h)
  · rcases List.mem_append.1 hl with h | h
    · exact Or.inr (List.eq_of_mem_replicate h)
    · exact Or.inl h
  · rcases List.mem_append.1 hl with h | h
    · rcases List.mem_append.1 h with h2 | h2
      · exact Or.inr (List.eq_of_mem_replicate h2)
      · exact Or.inl h2
    · exact Or.inr (List.eq_of_mem_replicate h)

/-- The maximum-height quantity of `joinHorizontal` on two blocks. -/
def jhMH (a b : JStr) : Nat := (([splitNL a, splitNL b].map List.length).foldl max 0)

/-- One aligned-and-padded block of `joinHorizontal`. -/
def jhPadded (pos : Rat) (mh : Nat) (s : JStr) (w : Nat) : List JStr :=
  (jhAlign pos mh (splitNL s) w).map (fun line => padRight line w)

/-- The output rows of `joinHorizontal` on two blocks. -/
def jhRows (pos : Rat) (a b : JStr) : List JStr :=
  (List.range (jhMH a b)).map (fun row =>
    ([jhPadded pos (jhMH a b) a (maxLineWidth (joinNL (splitNL a))),
      jhPadded pos (jhMH a b) b (maxLineWidth (joinNL (splitNL b)))].map
      (fun lines => lines.getD row [])).flatten)

theorem joinHorizontal_pair (pos : Rat) (a b : JStr) :
    joinHorizontal pos [a, b] = joinNL (jhRows pos a b) := rfl

theorem jhMH_eq (a b : JStr) : jhMH a b = max (splitNL a).length (splitNL b).length := by
  unfold jhMH
  simp [List.foldl]

theorem flatten_pair (x y : JStr) : List.flatten [x, y] = x ++ y := by simp

theorem jhPadded_shape {pos : Rat} {mh : Nat} {s : JStr} {w : Nat} {x : JStr}
    (hx : x ∈ jhPadded pos mh s w) :
    ∃ l, (l ∈ splitNL s ∨ l = List.replicate w 0x20) ∧ x = padRight l w := by
  obtain ⟨l, hl, rfl⟩ := List.mem_map.1 hx
  exact ⟨l, jhAlign_mem hl, rfl⟩

theorem jhPadded_no_nl {pos : Rat} {mh : Nat} {s : JStr} {w : Nat} {x : JStr}
    (hx : x ∈ jhPadded pos mh s w) : ∀ c ∈ x, c ≠ 0x0a := by
  obtain ⟨l, hl, rfl⟩ := jhPadded_shape hx
  refine no_nl_padExt (padExt_padRight_space l w) ?_
  rcases hl with hl | rfl
  · exact no_nl_of_mem_splitNL hl
  · intro c hc
    rcases List.eq_of_mem_replicate hc with rfl
    decide

theorem jhPadded_width {pos : Rat} {mh : Nat} {s : JStr} {w : Nat} {x : JStr}
    (hx : x ∈ jhPadded pos mh s w) (hplain : plainStr s) (hw : maxLineWidth s ≤ w) :
    stringWidth x = w ∧ plainStr x := by
  obtain ⟨l, hl, rfl⟩ := jhPadded_shape hx
  have hpl : plainStr l := by
    rcases hl with hl | rfl
    · exact fun c hc => hplain c (mem_of_mem_splitNL hl hc)
    · exact plainStr_replicate_space w
  have hwl : stringWidth l ≤ w := by
    rcases hl with hl | rfl
    · exact le_trans (stringWidth_le_maxLineWidth hl) hw
    · rw [stringWidth_replicate_space]
  exact ⟨padRight_width_plain hpl hwl, plainStr_padRight hpl⟩

theorem jhPadded_length (pos : Rat) (mh : Nat) (s : JStr) (w : Nat)
    (h : (splitNL s).length ≤ mh) : (jhPadded pos mh s w).length = mh := by
  unfold jhPadded
  rw [List.length_map, jhAlign_length h]

/-- C6 counterexample: with `a = "\x1b[31"` (an unterminated CSI prefix of
width 0) and `b = "mXY"` (width 3), the row concatenation completes the CSI
sequence across the block boundary, so the joined width is 2, not 0 + 3. -/
theorem C6_escape_bleed_counterexample :
    getWidth (joinHorizontal 0 [[0x1b, 0x5b, 0x33, 0x31], [0x6d, 88, 89]]) = 2 ∧
    getWidth [0x1b, 0x5b, 0x33, 0x31] + getWidth [0x6d, 88, 89] = 3 ∧ (2 : Nat) ≠ 3 := by
  refine ⟨by decide, by decide, by decide⟩

/-- C6 amended: the height law
`getHeight (joinHorizontal pos [a,b]) = max (getHeight a) (getHeight b)`
holds for all strings; the width law
`getWidth (joinHorizontal pos [a,b]) = getWidth a + getWidth b` holds when
both blocks are free of escape/CSI bytes and surrogate halves (so no control
sequence can span the block boundary). -/
theorem C6_joinHorizontal_size_laws (pos : Rat) (a b : JStr) :
    getHeight (joinHorizontal pos [a, b]) = max (getHeight a) (getHeight b) ∧
    (plainStr a → plainStr b →
      getWidth (joinHorizontal pos [a, b]) = getWidth a + getWidth b) := by
  have hlenA : (splitNL a).length ≤ jhMH a b := by
    rw [jhMH_eq]; exact le_max_left _ _
  have hlenB : (splitNL b).length ≤ jhMH a b := by
    rw [jhMH_eq]; exact le_max_right _ _
  have hpalen : (jhPadded pos (jhMH a b) a (maxLineWidth (joinNL (splitNL a)))).length =
      jhMH a b := jhPadded_length _ _ _ _ hlenA
  have hpblen : (jhPadded pos (jhMH a b) b (maxLineWidth (joinNL (splitNL b)))).length =
      jhMH a b := jhPadded_length _ _ _ _ hlenB
  have hMHpos : 0 < jhMH a b := by
    rw [jhMH_eq]
    have := splitNL_ne_nil a
    have h1 : 0 < (splitNL a).length := List.length_pos.2 (splitNL_ne_nil a)
    omega
  have hrows_len : (jhRows pos a b).length = jhMH a b := by
    unfold jhRows
    simp
  have hrows_ne : jhRows pos a b ≠ [] := by
    intro hx
    rw [hx] at hrows_len
    simp at hrows_len
    omega
  have hrow_shape : ∀ r ∈ jhRows pos a b,
      ∃ row, row < jhMH a b ∧ r =
        (jhPadded pos (jhMH a b) a (maxLineWidth (joinNL (splitNL a)))).getD row [] ++
        (jhPadded pos (jhMH a b) b (maxLineWidth (joinNL (splitNL b)))).getD row [] := by
    intro r hr
    unfold jhRows at hr
    obtain ⟨row, hrow, rfl⟩ := List.mem_map.1 hr
    refine ⟨row, List.mem_range.1 hrow, ?_⟩
    simp
  have hrows_nl : ∀ l ∈ jhRows pos a b, ∀ c ∈ l, c ≠ 0x0a := by
    intro l hl
    obtain ⟨row, hrow, rfl⟩ := hrow_shape l hl
    intro c hc
    rcases List.mem_append.1 hc with h | h
    · exact jhPadded_no_nl (getD_mem_of_lt
        (jhPadded pos (jhMH a b) a (maxLineWidth (joinNL (splitNL a)))) row []
        (by rw [hpalen]; omega)) c h
    · exact jhPadded_no_nl (getD_mem_of_lt
        (jhPadded pos (jhMH a b) b (maxLineWidth (joinNL (splitNL b)))) row []
        (by rw [hpblen]; omega)) c h
  constructor
  · rw [joinHorizontal_pair, getHeight_joinNL hrows_ne hrows_nl, hrows_len, jhMH_eq]
    rfl
  · intro hpa hpb
    rw [joinHorizontal_pair]
    show maxLineWidth (joinNL (jhRows pos a b)) = maxLineWidth a + maxLineWidth b
    have hWA : maxLineWidth (joinNL (splitNL a)) = maxLineWidth a := by
      rw [joinNL_splitNL]
    have hWB : maxLineWidth (joinNL (splitNL b)) = maxLineWidth b := by
      rw [joinNL_splitNL]
    refine maxLineWidth_const_rows hrows_ne hrows_nl ?_
    intro r hr
    obtain ⟨row, hrow, rfl⟩ := hrow_shape r hr
    have hA := jhPadded_width (getD_mem_of_lt
      (jhPadded pos (jhMH a b) a (maxLineWidth (joinNL (splitNL a)))) row []
      (by rw [hpalen]; omega)) hpa (le_of_eq hWA.symm)
    have hB := jhPadded_width (getD_mem_of_lt
      (jhPadded pos (jhMH a b) b (maxLineWidth (joinNL (splitNL b)))) row []
      (by rw [hpblen]; omega)) hpb (le_of_eq hWB.symm)
    rw [stringWidth_append_plain hA.2 hB.2, hA.1, hB.1, hWA, hWB]

/-- Witness for C6 amended at `pos = 0`, `a = "hi\nx"`, `b = "y"`. -/
theorem C6_joinHorizontal_size_laws_witness :
    getWidth (joinHorizontal 0 [[104, 105, 0x0a, 120], [121]]) =
      getWidth [104, 105, 0x0a, 120] + getWidth [121] :=
  (C6_joinHorizontal_size_laws 0 [104, 105, 0x0a, 120] [121]).2
    (by decide) (by decide)

/-! ### C8: strip idempotence -/

theorem scanGo_nil (st : ScanState) : scanGo st [] = [] := by cases st <;> rfl

theorem scanGo_ground_eq (c : Nat) (t : JStr) :
    scanGo .ground (c :: t) =
      if c = 0x1b then scanGo .escape t
      else if c = 0x9b then scanGo .csiEntry t
      else if c = 0x9d then scanGo .oscString t
      else c :: scanGo .ground t := rfl

theorem scanGo_escape_eq (c : Nat) (t : JStr) :
    scanGo .escape (c :: t) =
      if c = 0x5b then scanGo .csiEntry t
      else if c = 0x5d then scanGo .oscString t
      else if 0x40 ≤ c ∧ c ≤ 0x5f then scanGo .ground t
      else if 0x60 ≤ c ∧ c ≤ 0x7e then scanGo .ground t
      else 0x1b :: c :: scanGo .ground t := rfl

theorem scanGo_csiEntry_eq (c : Nat) (t : JStr) :
    scanGo .csiEntry (c :: t) =
      if isCsiParam c then scanGo .csiParam t
      else if isCsiIntermediate c then scanGo .csiInter t
      else if isCsiFinal c then scanGo .ground t
      else scanGo .csiEntry t := rfl

theorem scanGo_csiParam_eq (c : Nat) (t : JStr) :
    scanGo .csiParam (c :: t) =
      if isCsiIntermediate c then scanGo .csiInter t
      else if isCsiFinal c then scanGo .ground t
      else scanGo .csiParam t := rfl

theorem scanGo_csiInter_eq (c : Nat) (t : JStr) :
    scanGo .csiInter (c :: t) =
      if isCsiFinal c then scanGo .ground t
      else scanGo .csiInter t := rfl

theorem scanGo_osc_esc_bs (s : JStr) :
    scanGo .oscString (0x1b :: 0x5c :: s) = scanGo .ground s := rfl

theorem scanGo_osc_term {c : Nat} (s : JStr) (h : c = 0x07 ∨ c = 0x9c) :
    scanGo .oscString (c :: s) = scanGo .ground s := by
  rcases h with rfl | rfl
  · rcases s with _ | ⟨c2, s2⟩ <;> rfl
  · rcases s with _ | ⟨c2, s2⟩ <;> rfl

theorem scanGo_osc_other {c : Nat} (s : JStr) (h7 : c ≠ 0x07) (h9 : c ≠ 0x9c)
    (he : c ≠ 0x1b) : scanGo .oscString (c :: s) = scanGo .oscString s := by
  rw [scanGo.eq_def]
  split <;> simp_all

theorem scanGo_osc_esc_other {c2 : Nat} (s : JStr) (h : c2 ≠ 0x5c) :
    scanGo .oscString (0x1b :: c2 :: s) = scanGo .oscString (c2 :: s) := by
  rw [scanGo.eq_def]
  split
  all_goals simp_all
  rename_i heq
  obtain ⟨heqc, heqs⟩ := heq
  intro hx
  omega

/-- Characterization of the output of a full scan: visible bytes (never an
intro byte) and ESC-lenient pairs re-emitted by the escape fallback. -/
inductive CleanOut : JStr → Prop where
  | nil : CleanOut []
  | vis (c : Nat) (t : JStr) : c ≠ 0x1b → c ≠ 0x9b → c ≠ 0x9d → CleanOut t →
      CleanOut (c :: t)
  | pair (b : Nat) (t : JStr) : ¬(0x40 ≤ b ∧ b ≤ 0x7e) → CleanOut t →
      CleanOut (0x1b :: b :: t)

theorem scanGo_clean : ∀ (n : Nat) (st : ScanState) (s : JStr), s.length ≤ n →
    CleanOut (scanGo st s) := by
  intro n
  induction n with
  | zero =>
      intro st s hs
      have hnil : s = [] := List.length_eq_zero.1 (Nat.le_zero.1 hs)
      subst hnil
      rw [scanGo_nil]
      exact CleanOut.nil
  | succ k ih =>
      intro st s hs
      cases s with
      | nil => rw [scanGo_nil]; exact CleanOut.nil
      | cons c t =>
          have ht : t.length ≤ k := by simp at hs; omega
          cases st with
          | ground =>
              rw [scanGo_ground_eq]
              split_ifs with h1 h2 h3
              · exact ih .escape t ht
              · exact ih .csiEntry t ht
              · exact ih .oscString t ht
              · exact CleanOut.vis c _ h1 h2 h3 (ih .ground t ht)
          | escape =>
              rw [scanGo_escape_eq]
              split_ifs with h1 h2 h3 h4
              · exact ih .csiEntry t ht
              · exact ih .oscString t ht
              · exact ih .ground t ht
              · exact ih .ground t ht
              · exact CleanOut.pair c _ (by omega) (ih .ground t ht)
          | csiEntry =>
              rw [scanGo_csiEntry_eq]
              split_ifs <;>
                first
                  | exact ih .csiParam t ht
                  | exact ih .csiInter t ht
                  | exact ih .ground t ht
                  | exact ih .csiEntry t ht
          | csiParam =>
              rw [scanGo_csiParam_eq]
              split_ifs <;>
                first
                  | exact ih .csiInter t ht
                  | exact ih .ground t ht
                  | exact ih .csiParam t ht
          | csiInter =>
              rw [scanGo_csiInter_eq]
              split_ifs <;>
                first
                  | exact ih .ground t ht
                  | exact ih .csiInter t ht
          | oscString =>
              by_cases hterm : c = 0x07 ∨ c = 0x9c
              · rw [scanGo_osc_term t hterm]
                exact ih .ground t ht
              · push_neg at hterm
                by_cases hesc : c = 0x1b
                · subst hesc
                  cases t with
                  | nil =>
                      rw [show scanGo .oscString [0x1b] = [] from rfl]
                      exact CleanOut.nil
                  | cons c2 t2 =>
                      by_cases hbs : c2 = 0x5c
                      · subst hbs
                        rw [scanGo_osc_esc_bs]
                        exact ih .ground t2 (by simp at hs; omega)
                      · rw [scanGo_osc_esc_other _ hbs]
                        exact ih .oscString (c2 :: t2) ht
                · rw [scanGo_osc_other t hterm.1 hterm.2 hesc]
                  exact ih .oscString t ht

theorem cleanOut_scan_fixed {t : JStr} (h : CleanOut t) : scanGo .ground t = t := by
  induction h with
  | nil => rfl
  | vis c t h1 h2 h3 _ ih =>
      rw [scanGo_ground_eq, if_neg h1, if_neg h2, if_neg h3, ih]
  | pair b t hb _ ih =>
      rw [show scanGo .ground (0x1b :: b :: t) = scanGo .escape (b :: t) from rfl,
        scanGo_escape_eq, if_neg (by omega), if_neg (by omega),
        if_neg (by omega), if_neg (by omega), ih]

/-- C8: `strip` is idempotent on every string, and is the identity on every
string containing no control runs (no ESC, CSI or OSC introducer bytes). -/
theorem C8_strip_idempotent (s : JStr) :
    stripAnsi (stripAnsi s) = stripAnsi s ∧
    ((∀ c ∈ s, c ≠ 0x1b ∧ c ≠ 0x9b ∧ c ≠ 0x9d) → stripAnsi s = s) := by
  constructor
  · by_cases hf : (¬ s.contains 0x1b ∧ ¬ s.contains 0x9b)
    · have h1 : stripAnsi s = s := by rw [stripAnsi, if_pos hf]
      rw [h1]
      exact h1
    · have h1 : stripAnsi s = scanGo .ground s := by rw [stripAnsi, if_neg hf]
      rw [h1]
      have hfix : scanGo .ground (scanGo .ground s) = scanGo .ground s :=
        cleanOut_scan_fixed (scanGo_clean s.length .ground s le_rfl)
      by_cases hf2 : (¬ (scanGo .ground s).contains 0x1b ∧
          ¬ (scanGo .ground s).contains 0x9b)
      · rw [stripAnsi, if_pos hf2]
      · rw [stripAnsi, if_neg hf2, hfix]
  · intro h
    exact stripAnsi_of_no_esc (fun hm => (h _ hm).1 rfl) (fun hm => (h _ hm).2.1 rfl)

/-- Witness for C8 at the control-free string "hi". -/
theorem C8_strip_idempotent_witness : stripAnsi [104, 105] = [104, 105] :=
  (C8_strip_idempotent [104, 105]).2 (by decide)

/-! ### C3: OSC introducers and terminators in strip and truncate -/

theorem scan_osc_run {p : JStr} (hp : ∀ b ∈ p, b ≠ 0x07 ∧ b ≠ 0x9c ∧ b ≠ 0x1b) :
    ∀ q : JStr, scanGo .oscString (p ++ q) = scanGo .oscString q := by
  induction p with
  | nil => intro q; rfl
  | cons b p2 ih =>
      intro q
      have hb := hp b (List.mem_cons_self _ _)
      rw [List.cons_append, scanGo_osc_other _ hb.1 hb.2.1 hb.2.2,
        ih (fun d hd => hp d (List.mem_cons_of_mem _ hd)) q]

/-- C3 counterexample: a 0x9D-introduced, BEL-terminated OSC run in a string
with no ESC and no 0x9B byte takes `stripAnsi`'s fast path and is returned
unchanged — the run is not removed; and `truncate` does not recognize ST
(0x9C) as an OSC terminator, so it consumes the rest of the input as control
and drops it. -/
theorem C3_osc_counterexample :
    stripAnsi [0x9d, 97, 98, 0x07, 120] = [0x9d, 97, 98, 0x07, 120] ∧
    ([0x9d, 97, 98, 0x07, 120] : JStr) ≠ [120] ∧
    truncate [0x1b, 0x5d, 0x74, 0x9c, 97, 98, 99, 100, 101, 102] 3 [] = [] := by
  refine ⟨by decide, by decide, by decide⟩

/-- C3 amended: the full scanner does treat 0x9B/0x9D as CSI/OSC introducers
and BEL, ST and ESC-backslash as OSC terminators, but (1) `stripAnsi` only
runs the scanner when the string contains ESC or 0x9B — otherwise the fast
path returns the string unchanged, so a 0x9D-introduced run alone is not
stripped — and (2) `truncate`'s walker recognizes only BEL and
ESC-backslash as OSC terminators, so an ST-terminated OSC run swallows the
rest of the input (dropped if no later terminator). -/
theorem C3_osc_amended (p q : JStr) (hp : ∀ b ∈ p, b ≠ 0x07 ∧ b ≠ 0x9c ∧ b ≠ 0x1b) :
    scanGo .ground (0x9d :: (p ++ 0x07 :: q)) = scanGo .ground q ∧
    scanGo .ground (0x1b :: 0x5d :: (p ++ 0x9c :: q)) = scanGo .ground q ∧
    (∀ s : JStr, ¬ s.contains 0x1b → ¬ s.contains 0x9b → stripAnsi s = s) ∧
    truncate [0x1b, 0x5d, 0x74, 0x9c, 97, 98, 99, 100, 101, 102] 3 [] = [] := by
  refine ⟨?_, ?_, ?_, by decide⟩
  · rw [show scanGo .ground (0x9d :: (p ++ 0x07 :: q)) =
      scanGo .oscString (p ++ 0x07 :: q) from rfl,
      scan_osc_run hp, scanGo_osc_term q (Or.inl rfl)]
  · rw [show scanGo .ground (0x1b :: 0x5d :: (p ++ 0x9c :: q)) =
      scanGo .oscString (p ++ 0x9c :: q) from rfl,
      scan_osc_run hp, scanGo_osc_term q (Or.inr rfl)]
  · intro s h1 h9
    rw [stripAnsi, if_pos ⟨h1, h9⟩]

/-- Witness for C3 amended with OSC payload "t" and remainder "x". -/
theorem C3_osc_amended_witness :
    scanGo .ground (0x9d :: ([116] ++ 0x07 :: [120])) = scanGo .ground [120] :=
  (C3_osc_amended [116] [120] (by decide)).1

/-! ### C9: truncate drops everything after the cut -/

theorem truncGo_nil (tw cw : Nat) (st : ScanState) (buf : JStr) :
    truncGo tw cw st buf [] = ([], false) := by cases st <;> rfl

theorem truncGo_ground_eq (tw cw : Nat) (buf : JStr) (c : Nat) (s : JStr) :
    truncGo tw cw .ground buf (c :: s) =
      if c = 0x1b then truncGo tw cw .escape [c] s
      else if c = 0x9b then truncGo tw cw .csiEntry [c] s
      else if cw + codePointWidth c > tw then ([], true)
      else ((c :: (truncGo tw (cw + codePointWidth c) .ground buf s).1),
        (truncGo tw (cw + codePointWidth c) .ground buf s).2) := rfl

theorem truncGo_escape_eq (tw cw : Nat) (buf : JStr) (c : Nat) (s : JStr) :
    truncGo tw cw .escape buf (c :: s) =
      if c = 0x5b then truncGo tw cw .csiEntry (buf ++ [c]) s
      else if c = 0x5d then truncGo tw cw .oscString (buf ++ [c]) s
      else (buf ++ [c] ++ (truncGo tw cw .ground [] s).1,
        (truncGo tw cw .ground [] s).2) := rfl

theorem truncGo_csiEntry_eq (tw cw : Nat) (buf : JStr) (c : Nat) (s : JStr) :
    truncGo tw cw .csiEntry buf (c :: s) =
      if isCsiFinal c then
        (buf ++ [c] ++ (truncGo tw cw .ground [] s).1, (truncGo tw cw .ground [] s).2)
      else if isCsiParam c then truncGo tw cw .csiParam (buf ++ [c]) s
      else if isCsiIntermediate c then truncGo tw cw .csiInter (buf ++ [c]) s
      else truncGo tw cw .csiEntry (buf ++ [c]) s := rfl

theorem truncGo_csiParam_eq (tw cw : Nat) (buf : JStr) (c : Nat) (s : JStr) :
    truncGo tw cw .csiParam buf (c :: s) =
      if isCsiFinal c then
        (buf ++ [c] ++ (truncGo tw cw .ground [] s).1, (truncGo tw cw .ground [] s).2)
      else if isCsiParam c then truncGo tw cw .csiParam (buf ++ [c]) s
      else if isCsiIntermediate c then truncGo tw cw .csiInter (buf ++ [c]) s
      else truncGo tw cw .csiParam (buf ++ [c]) s := rfl

theorem truncGo_csiInter_eq (tw cw : Nat) (buf : JStr) (c : Nat) (s : JStr) :
    truncGo tw cw .csiInter buf (c :: s) =
      if isCsiFinal c then
        (buf ++ [c] ++ (truncGo tw cw .ground [] s).1, (truncGo tw cw .ground [] s).2)
      else truncGo tw cw .csiInter (buf ++ [c]) s := rfl

theorem truncGo_osc_esc_bs (tw cw : Nat) (buf : JStr) (s : JStr) :
    truncGo tw cw .oscString buf (0x1b :: 0x5c :: s) =
      (buf ++ [0x1b, 0x5c] ++ (truncGo tw cw .ground [] s).1,
        (truncGo tw cw .ground [] s).2) := rfl

theorem truncGo_osc_bel (tw cw : Nat) (buf : JStr) (s : JStr) :
    truncGo tw cw .oscString buf (0x07 :: s) =
      (buf ++ [0x07] ++ (truncGo tw cw .ground [] s).1,
        (truncGo tw cw .ground [] s).2) := by
  rcases s with _ | ⟨c2, s2⟩ <;> rfl

theorem truncGo_osc_other (tw cw : Nat) (buf : JStr) {c : Nat} (s : JStr)
    (h7 : c ≠ 0x07) (he : c ≠ 0x1b) :
    truncGo tw cw .oscString buf (c :: s) =
      truncGo tw cw .oscString (buf ++ [c]) s := by
  rw [truncGo.eq_def]
  split <;> simp_all

theorem truncGo_osc_esc_other (tw cw : Nat) (buf : JStr) {c2 : Nat} (s : JStr)
    (h : c2 ≠ 0x5c) :
    truncGo tw cw .oscString buf (0x1b :: c2 :: s) =
      truncGo tw cw .oscString (buf ++ [0x1b]) (c2 :: s) := by
  rw [truncGo.eq_def]
  split
  all_goals simp_all
  rename_i heq
  obtain ⟨heqc, heqs⟩ := heq
  intro hx
  omega

theorem truncGo_break_append (tw : Nat) (t : JStr) :
    ∀ (n : Nat) (cw : Nat) (st : ScanState) (buf s : JStr), s.length ≤ n →
      (truncGo tw cw st buf s).2 = true →
      truncGo tw cw st buf (s ++ t) = truncGo tw cw st buf s := by
  intro n
  induction n with
  | zero =>
      intro cw st buf s hs hb
      have hnil : s = [] := List.length_eq_zero.1 (Nat.le_zero.1 hs)
      subst hnil
      rw [truncGo_nil] at hb
      simp at hb
  | succ k ih =>
      intro cw st buf s hs hb
      cases s with
      | nil => rw [truncGo_nil] at hb; simp at hb
      | cons c s' =>
          have hs' : s'.length ≤ k := by simp at hs; omega
          cases st with
          | ground =>
              by_cases h1 : c = 0x1b
              · subst h1
                exact ih cw .escape [0x1b] s' hs' hb
              · by_cases h2 : c = 0x9b
                · subst h2
                  exact ih cw .csiEntry [0x9b] s' hs' hb
                · by_cases h3 : cw + codePointWidth c > tw
                  · rw [List.cons_append, truncGo_ground_eq, if_neg h1, if_neg h2,
                      if_pos h3, truncGo_ground_eq, if_neg h1, if_neg h2, if_pos h3]
                  · have hb' : (truncGo tw (cw + codePointWidth c) .ground buf s').2 =
                        true := by
                      rw [truncGo_ground_eq, if_neg h1, if_neg h2, if_neg h3] at hb
                      simpa using hb
                    rw [List.cons_append, truncGo_ground_eq, if_neg h1, if_neg h2,
                      if_neg h3, truncGo_ground_eq, if_neg h1, if_neg h2, if_neg h3,
                      ih (cw + codePointWidth c) .ground buf s' hs' hb']
          | escape =>
              by_cases h1 : c = 0x5b
              · subst h1
                exact ih cw .csiEntry (buf ++ [0x5b]) s' hs' hb
              · by_cases h2 : c = 0x5d
                · subst h2
                  exact ih cw .oscString (buf ++ [0x5d]) s' hs' hb
                · have hb' : (truncGo tw cw .ground [] s').2 = true := by
                    rw [truncGo_escape_eq, if_neg h1, if_neg h2] at hb
                    simpa using hb
                  rw [List.cons_append, truncGo_escape_eq, if_neg h1, if_neg h2,
                    truncGo_escape_eq, if_neg h1, if_neg h2,
                    ih cw .ground [] s' hs' hb']
          | csiEntry =>
              by_cases hf : isCsiFinal c
              · have hb' : (truncGo tw cw .ground [] s').2 = true := by
                  rw [truncGo_csiEntry_eq, if_pos hf] at hb
                  simpa using hb
                rw [List.cons_append, truncGo_csiEntry_eq, if_pos hf,
                  truncGo_csiEntry_eq, if_pos hf, ih cw .ground [] s' hs' hb']
              · by_cases hp : isCsiParam c
                · have hb' : (truncGo tw cw .csiParam (buf ++ [c]) s').2 = true := by
                    rw [truncGo_csiEntry_eq, if_neg hf, if_pos hp] at hb
                    exact hb
                  rw [List.cons_append, truncGo_csiEntry_eq, if_neg hf, if_pos hp,
                    truncGo_csiEntry_eq, if_neg hf, if_pos hp]
                  exact ih cw .csiParam (buf ++ [c]) s' hs' hb'
                · by_cases hi : isCsiIntermediate c
                  · have hb' : (truncGo tw cw .csiInter (buf ++ [c]) s').2 = true := by
                      rw [truncGo_csiEntry_eq, if_neg hf, if_neg hp, if_pos hi] at hb
                      exact hb
                    rw [List.cons_append, truncGo_csiEntry_eq, if_neg hf, if_neg hp,
                      if_pos hi, truncGo_csiEntry_eq, if_neg hf, if_neg hp, if_pos hi]
                    exact ih cw .csiInter (buf ++ [c]) s' hs' hb'
                  · have hb' : (truncGo tw cw .csiEntry (buf ++ [c]) s').2 = true := by
                      rw [truncGo_csiEntry_eq, if_neg hf, if_neg hp, if_neg hi] at hb
                      exact hb
                    rw [List.cons_append, truncGo_csiEntry_eq, if_neg hf, if_neg hp,
                      if_neg hi, truncGo_csiEntry_eq, if_neg hf, if_neg hp, if_neg hi]
                    exact ih cw .csiEntry (buf ++ [c]) s' hs' hb'
          | csiParam =>
              by_cases hf : isCsiFinal c
              · have hb' : (truncGo tw cw .ground [] s').2 = true := by
                  rw [truncGo_csiParam_eq, if_pos hf] at hb
                  simpa using hb
                rw [List.cons_append, truncGo_csiParam_eq, if_pos hf,
                  truncGo_csiParam_eq, if_pos hf, ih cw .ground [] s' hs' hb']
              · by_cases hp : isCsiParam c
                · have hb' : (truncGo tw cw .csiParam (buf ++ [c]) s').2 = true := by
                    rw [truncGo_csiParam_eq, if_neg hf, if_pos hp] at hb
                    exact hb
                  rw [List.cons_append, truncGo_csiParam_eq, if_neg hf, if_pos hp,
                    truncGo_csiParam_eq, if_neg hf, if_pos hp]
                  exact ih cw .csiParam (buf ++ [c]) s' hs' hb'
                · by_cases hi : isCsiIntermediate c
                  · have hb' : (truncGo tw cw .csiInter (buf ++ [c]) s').2 = true := by
                      rw [truncGo_csiParam_eq, if_neg hf, if_neg hp, if_pos hi] at hb
                      exact hb
                    rw [List.cons_append, truncGo_csiParam_eq, if_neg hf, if_neg hp,
                      if_pos hi, truncGo_csiParam_eq, if_neg hf, if_neg hp, if_pos hi]
                    exact ih cw .csiInter (buf ++ [c]) s' hs' hb'
                  · have hb' : (truncGo tw cw .csiParam (buf ++ [c]) s').2 = true := by
                      rw [truncGo_csiParam_eq, if_neg hf, if_neg hp, if_neg hi] at hb
                      exact hb
                    rw [List.cons_append, truncGo_csiParam_eq, if_neg hf, if_neg hp,
                      if_neg hi, truncGo_csiParam_eq, if_neg hf, if_neg hp, if_neg hi]
                    exact ih cw .csiParam (buf ++ [c]) s' hs' hb'
          | csiInter =>
              by_cases hf : isCsiFinal c
              · have hb' : (truncGo tw cw .ground [] s').2 = true := by
                  rw [truncGo_csiInter_eq, if_pos hf] at hb
                  simpa using hb
                rw [List.cons_append, truncGo_csiInter_eq, if_pos hf,
                  truncGo_csiInter_eq, if_pos hf, ih cw .ground [] s' hs' hb']
              · have hb' : (truncGo tw cw .csiInter (buf ++ [c]) s').2 = true := by
                  rw [truncGo_csiInter_eq, if_neg hf] at hb
                  exact hb
                rw [List.cons_append, truncGo_csiInter_eq, if_neg hf,
                  truncGo_csiInter_eq, if_neg hf]
                exact ih cw .csiInter (buf ++ [c]) s' hs' hb'
          | oscString =>
              by_cases h7 : c = 0x07
              · subst h7
                have hb' : (truncGo tw cw .ground [] s').2 = true := by
                  rw [truncGo_osc_bel] at hb
                  simpa using hb
                rw [List.cons_append, truncGo_osc_bel, truncGo_osc_bel,
                  ih cw .ground [] s' hs' hb']
              · by_cases he : c = 0x1b
                · subst he
                  cases s' with
                  | nil =>
                      rw [show (truncGo tw cw .oscString buf [0x1b]).2 = false from rfl]
                        at hb
                      simp at hb
                  | cons c2 s2 =>
                      by_cases hbs : c2 = 0x5c
                      · subst hbs
                        have hb' : (truncGo tw cw .ground [] s2).2 = true := by
                          rw [truncGo_osc_esc_bs] at hb
                          simpa using hb
                        rw [List.cons_append, List.cons_append, truncGo_osc_esc_bs,
                          truncGo_osc_esc_bs,
                          ih cw .ground [] s2 (by simp at hs; omega) hb']
                      · have hb' : (truncGo tw cw .oscString (buf ++ [0x1b])
                            (c2 :: s2)).2 = true := by
                          rw [truncGo_osc_esc_other tw cw buf _ hbs] at hb
                          exact hb
                        rw [List.cons_append, List.cons_append,
                          truncGo_osc_esc_other tw cw buf _ hbs,
                          truncGo_osc_esc_other tw cw buf _ hbs,
                          ← List.cons_append]
                        exact ih cw .oscString (buf ++ [0x1b]) (c2 :: s2) hs' hb'
                · have hb' : (truncGo tw cw .oscString (buf ++ [c]) s').2 = true := by
                    rw [truncGo_osc_other tw cw buf _ h7 he] at hb
                    exact hb
                  rw [List.cons_append, truncGo_osc_other tw cw buf _ h7 he,
                    truncGo_osc_other tw cw buf _ h7 he]
                  exact ih cw .oscString (buf ++ [c]) s' hs' hb'

theorem truncate_cut_eq (s tl : JStr) (mw : Int) (hmw : 0 < mw)
    (htl : (stringWidth tl : Int) < mw) (hs : mw < (stringWidth s : Int)) :
    truncate s mw tl = (truncGo (mw - stringWidth tl).toNat 0 .ground [] s).1 ++ tl := by
  simp only [truncate]
  rw [if_neg (by omega), if_neg (by omega), if_neg (by omega)]

/-- C9: when the budget walk of `truncate` breaks inside `s` (the cut
happens there), every byte after the cut — in particular every control run,
such as a trailing style reset — is dropped entirely: appending any suffix
`t` does not change the result, and the result is the kept body followed
immediately by the tail. -/
theorem C9_truncate_drops_suffix_after_cut (s t tl : JStr) (mw : Int)
    (hmw : 0 < mw) (htl : (stringWidth tl : Int) < mw)
    (hs : mw < (stringWidth s : Int)) (hst : mw < (stringWidth (s ++ t) : Int))
    (hbreak : (truncGo (mw - stringWidth tl).toNat 0 .ground [] s).2 = true) :
    truncate (s ++ t) mw tl = truncate s mw tl ∧
    ∃ body, truncate s mw tl = body ++ tl := by
  have h1 := truncate_cut_eq s tl mw hmw htl hs
  have h2 := truncate_cut_eq (s ++ t) tl mw hmw htl hst
  refine ⟨?_, ⟨_, h1⟩⟩
  rw [h1, h2,
    truncGo_break_append (mw - stringWidth tl).toNat t s.length 0 .ground [] s
      le_rfl hbreak]

/-- Witness for C9: truncating "abcdef" to width 3 with a trailing reset
sequence appended gives the same "abc" as without it — the reset after the
cut is not preserved. -/
theorem C9_truncate_drops_suffix_after_cut_witness :
    truncate ([97, 98, 99, 100, 101, 102] ++ [0x1b, 0x5b, 0x6d]) 3 [] =
      truncate [97, 98, 99, 100, 101, 102] 3 [] :=
  (C9_truncate_drops_suffix_after_cut [97, 98, 99, 100, 101, 102]
    [0x1b, 0x5b, 0x6d] [] 3 (by decide) (by decide) (by decide) (by decide)
    (by decide)).1

/-! ### C1: truncate width bound and control-sequence atomicity -/

/-- Sum of per-code-unit widths. -/
def unitW (z : JStr) : Nat := (z.map codePointWidth).sum

/-- Sum of widths over surrogate-paired code points (what `stringWidth`
computes after stripping). -/
def pairedW (z : JStr) : Nat := ((codePoints z).map codePointWidth).sum

/-- Well-formed SGR-style strings: visible units interleaved with complete
CSI runs (ESC-[ or 0x9B introduced, non-final parameter bytes, one final
byte).  `SgrStr r` expresses that `r` contains no partial control run. -/
inductive SgrStr : JStr → Prop where
  | nil : SgrStr []
  | vis (c : Nat) (t : JStr) : c ≠ 0x1b → c ≠ 0x9b → c ≠ 0x9d → SgrStr t →
      SgrStr (c :: t)
  | csiEsc (ps : JStr) (f : Nat) (t : JStr) :
      (∀ b ∈ ps, ¬(0x40 ≤ b ∧ b ≤ 0x7e)) → 0x40 ≤ f → f ≤ 0x7e → SgrStr t →
      SgrStr (0x1b :: 0x5b :: (ps ++ f :: t))
  | csi8 (ps : JStr) (f : Nat) (t : JStr) :
      (∀ b ∈ ps, ¬(0x40 ≤ b ∧ b ≤ 0x7e)) → 0x40 ≤ f → f ≤ 0x7e → SgrStr t →
      SgrStr (0x9b :: (ps ++ f :: t))

theorem SgrStr.append {x y : JStr} (hx : SgrStr x) (hy : SgrStr y) : SgrStr (x ++ y) := by
  induction hx with
  | nil => exact hy
  | vis c t h1 h2 h3 _ ih => exact SgrStr.vis c _ h1 h2 h3 ih
  | csiEsc ps f t hps hf1 hf2 _ ih =>
      have : (0x1b :: 0x5b :: (ps ++ f :: t)) ++ y = 0x1b :: 0x5b :: (ps ++ f :: (t ++ y)) := by
        simp
      rw [this]
      exact SgrStr.csiEsc ps f _ hps hf1 hf2 ih
  | csi8 ps f t hps hf1 hf2 _ ih =>
      have : (0x9b :: (ps ++ f :: t)) ++ y = 0x9b :: (ps ++ f :: (t ++ y)) := by
        simp
      rw [this]
      exact SgrStr.csi8 ps f _ hps hf1 hf2 ih

theorem scan_csi_run : ∀ (ps : JStr), (∀ b ∈ ps, ¬(0x40 ≤ b ∧ b ≤ 0x7e)) →
    ∀ {f : Nat}, 0x40 ≤ f → f ≤ 0x7e → ∀ (t : JStr) (st : ScanState),
    (st = .csiEntry ∨ st = .csiParam ∨ st = .csiInter) →
    scanGo st (ps ++ f :: t) = scanGo .ground t := by
  intro ps
  induction ps with
  | nil =>
      intro _ f hf1 hf2 t st hst
      have hfinal : isCsiFinal f = true := by simp [isCsiFinal]; omega
      have hparam : isCsiParam f = false := by simp [isCsiParam]; omega
      have hinter : isCsiIntermediate f = false := by simp [isCsiIntermediate]; omega
      rcases hst with rfl | rfl | rfl
      · rw [List.nil_append, scanGo_csiEntry_eq, hparam, hinter, hfinal]
        simp
      · rw [List.nil_append, scanGo_csiParam_eq, hinter, hfinal]
        simp
      · rw [List.nil_append, scanGo_csiInter_eq, hfinal]
        simp
  | cons b ps' ih =>
      intro hps f hf1 hf2 t st hst
      have hb := hps b (List.mem_cons_self _ _)
      have hbf : isCsiFinal b = false := by simp [isCsiFinal]; omega
      have ihs := ih (fun d hd => hps d (List.mem_cons_of_mem _ hd)) hf1 hf2 t
      rcases hst with rfl | rfl | rfl
      · rw [List.cons_append, scanGo_csiEntry_eq, hbf]
        by_cases hp : isCsiParam b
        · rw [hp]
          simpa using ihs .csiParam (Or.inr (Or.inl rfl))
        · rw [Bool.not_eq_true] at hp
          rw [hp]
          by_cases hi : isCsiIntermediate b
          · rw [hi]
            simpa using ihs .csiInter (Or.inr (Or.inr rfl))
          · rw [Bool.not_eq_true] at hi
            rw [hi]
            simpa using ihs .csiEntry (Or.inl rfl)
      · rw [List.cons_append, scanGo_csiParam_eq, hbf]
        by_cases hi : isCsiIntermediate b
        · rw [hi]
          simpa using ihs .csiInter (Or.inr (Or.inr rfl))
        · rw [Bool.not_eq_true] at hi
          rw [hi]
          simpa using ihs .csiParam (Or.inr (Or.inl rfl))
      · rw [List.cons_append, scanGo_csiInter_eq, hbf]
        simpa using ihs .csiInter (Or.inr (Or.inr rfl))

theorem scan_sgr_no_esc {s : JStr} (hs : SgrStr s) (h1 : (0x1b : Nat) ∉ s)
    (h9 : (0x9b : Nat) ∉ s) : scanGo .ground s = s := by
  induction hs with
  | nil => rfl
  | vis c t hc1 hc2 hc3 _ ih =>
      rw [scanGo_ground_eq, if_neg hc1, if_neg hc2, if_neg hc3,
        ih (fun hm => h1 (List.mem_cons_of_mem _ hm))
          (fun hm => h9 (List.mem_cons_of_mem _ hm))]
  | csiEsc ps f t hps hf1 hf2 _ ih =>
      exact absurd (List.mem_cons_self _ _) h1
  | csi8 ps f t hps hf1 hf2 _ ih =>
      exact absurd (List.mem_cons_self _ _) h9

theorem scan_sgr_cons_vis {c : Nat} {t : JStr} (h1 : c ≠ 0x1b) (h2 : c ≠ 0x9b)
    (h3 : c ≠ 0x9d) : scanGo .ground (c :: t) = c :: scanGo .ground t := by
  rw [scanGo_ground_eq, if_neg h1, if_neg h2, if_neg h3]

theorem scan_sgr_csiEsc {ps : JStr} {f : Nat} (t : JStr)
    (hps : ∀ b ∈ ps, ¬(0x40 ≤ b ∧ b ≤ 0x7e)) (hf1 : 0x40 ≤ f) (hf2 : f ≤ 0x7e) :
    scanGo .ground (0x1b :: 0x5b :: (ps ++ f :: t)) = scanGo .ground t := by
  rw [show scanGo .ground (0x1b :: 0x5b :: (ps ++ f :: t)) =
      scanGo .csiEntry (ps ++ f :: t) from rfl,
    scan_csi_run ps hps hf1 hf2 t .csiEntry (Or.inl rfl)]

theorem scan_sgr_csi8 {ps : JStr} {f : Nat} (t : JStr)
    (hps : ∀ b ∈ ps, ¬(0x40 ≤ b ∧ b ≤ 0x7e)) (hf1 : 0x40 ≤ f) (hf2 : f ≤ 0x7e) :
    scanGo .ground (0x9b :: (ps ++ f :: t)) = scanGo .ground t := by
  rw [show scanGo .ground (0x9b :: (ps ++ f :: t)) =
      scanGo .csiEntry (ps ++ f :: t) from rfl,
    scan_csi_run ps hps hf1 hf2 t .csiEntry (Or.inl rfl)]

theorem scan_sgr_append {x : JStr} (hx : SgrStr x) (y : JStr) :
    scanGo .ground (x ++ y) = scanGo .ground x ++ scanGo .ground y := by
  induction hx with
  | nil => simp [scanGo_nil]
  | vis c t h1 h2 h3 _ ih =>
      rw [List.cons_append, scan_sgr_cons_vis h1 h2 h3, scan_sgr_cons_vis h1 h2 h3,
        ih, List.cons_append]
  | csiEsc ps f t hps hf1 hf2 _ ih =>
      have hassoc : (0x1b :: 0x5b :: (ps ++ f :: t)) ++ y =
          0x1b :: 0x5b :: (ps ++ f :: (t ++ y)) := by simp
      rw [hassoc, scan_sgr_csiEsc _ hps hf1 hf2, scan_sgr_csiEsc _ hps hf1 hf2, ih]
  | csi8 ps f t hps hf1 hf2 _ ih =>
      have hassoc : (0x9b :: (ps ++ f :: t)) ++ y = 0x9b :: (ps ++ f :: (t ++ y)) := by
        simp
      rw [hassoc, scan_sgr_csi8 _ hps hf1 hf2, scan_sgr_csi8 _ hps hf1 hf2, ih]

theorem not_mem_of_not_contains {a : Nat} {l : List Nat} (h : ¬ l.contains a = true) :
    a ∉ l := fun hm => h (by simpa using hm)

theorem stringWidth_sgr {s : JStr} (hs : SgrStr s) :
    stringWidth s = pairedW (scanGo .ground s) := by
  cases s with
  | nil => rfl
  | cons c t =>
      rw [stringWidth, if_neg (by simp), stripAnsi]
      split_ifs with hf
      · rw [scan_sgr_no_esc hs (not_mem_of_not_contains hf.1)
          (not_mem_of_not_contains hf.2)]
        rfl
      · rfl

theorem codePointWidth_le_two (cp : Nat) : codePointWidth cp ≤ 2 := by
  unfold codePointWidth
  split_ifs <;> omega

theorem codePointWidth_surrogate {c : Nat} (h1 : 0xd800 ≤ c) (h2 : c ≤ 0xdfff) :
    codePointWidth c = 1 := by
  unfold codePointWidth
  split_ifs <;> omega

theorem codePoints_cons_low {c : Nat} (z : JStr) (h : ¬(0xd800 ≤ c ∧ c ≤ 0xdbff)) :
    codePoints (c :: z) = c :: codePoints z := by
  cases z with
  | nil => rfl
  | cons c2 z2 =>
      rw [show codePoints (c :: c2 :: z2) =
        if (0xd800 ≤ c ∧ c ≤ 0xdbff) ∧ (0xdc00 ≤ c2 ∧ c2 ≤ 0xdfff) then
          (0x10000 + (c - 0xd800) * 0x400 + (c2 - 0xdc00)) :: codePoints z2
        else c :: codePoints (c2 :: z2) from rfl,
        if_neg (fun hx => h hx.1)]

theorem pairedW_cons_le (c : Nat) (z : JStr) :
    pairedW (c :: z) ≤ codePointWidth c + pairedW z := by
  by_cases hhi : 0xd800 ≤ c ∧ c ≤ 0xdbff
  · cases z with
    | nil =>
        rw [show pairedW [c] = codePointWidth c from by simp [pairedW, codePoints]]
        omega
    | cons c2 z2 =>
        by_cases hlo : 0xdc00 ≤ c2 ∧ c2 ≤ 0xdfff
        · rw [show pairedW (c :: c2 :: z2) =
            codePointWidth (0x10000 + (c - 0xd800) * 0x400 + (c2 - 0xdc00)) +
              pairedW z2 from by
              unfold pairedW
              rw [show codePoints (c :: c2 :: z2) =
                (0x10000 + (c - 0xd800) * 0x400 + (c2 - 0xdc00)) :: codePoints z2
                from by
                  rw [show codePoints (c :: c2 :: z2) =
                    if (0xd800 ≤ c ∧ c ≤ 0xdbff) ∧ (0xdc00 ≤ c2 ∧ c2 ≤ 0xdfff) then
                      (0x10000 + (c - 0xd800) * 0x400 + (c2 - 0xdc00)) :: codePoints z2
                    else c :: codePoints (c2 :: z2) from rfl, if_pos ⟨hhi, hlo⟩]]
              simp]
          have hc := codePointWidth_surrogate hhi.1 (by omega)
          have hc2 := codePointWidth_surrogate (c := c2) (by omega) (by omega)
          have hpair := codePointWidth_le_two
            (0x10000 + (c - 0xd800) * 0x400 + (c2 - 0xdc00))
          have hz : pairedW (c2 :: z2) = codePointWidth c2 + pairedW z2 := by
            unfold pairedW
            rw [codePoints_cons_low _ (by omega)]
            simp
          omega
        · rw [show pairedW (c :: c2 :: z2) = codePointWidth c + pairedW (c2 :: z2)
            from by
              unfold pairedW
              rw [show codePoints (c :: c2 :: z2) =
                if (0xd800 ≤ c ∧ c ≤ 0xdbff) ∧ (0xdc00 ≤ c2 ∧ c2 ≤ 0xdfff) then
                  (0x10000 + (c - 0xd800) * 0x400 + (c2 - 0xdc00)) :: codePoints z2
                else c :: codePoints (c2 :: z2) from rfl,
                if_neg (fun hx => hlo hx.2)]
              simp]
  · rw [show pairedW (c :: z) = codePointWidth c + pairedW z from by
      unfold pairedW
      rw [codePoints_cons_low _ hhi]
      simp]

theorem pairedW_append_le (u v : JStr) : pairedW (u ++ v) ≤ unitW u + pairedW v := by
  induction u with
  | nil => simp [unitW]
  | cons c u2 ih =>
      have h1 := pairedW_cons_le c (u2 ++ v)
      have h2 : unitW (c :: u2) = codePointWidth c + unitW u2 := by simp [unitW]
      rw [List.cons_append]
      omega

theorem truncGo_csi_run (tw : Nat) : ∀ (ps : JStr), (∀ b ∈ ps, ¬(0x40 ≤ b ∧ b ≤ 0x7e)) →
    ∀ {f : Nat}, 0x40 ≤ f → f ≤ 0x7e → ∀ (t : JStr) (cw : Nat) (st : ScanState)
    (buf : JStr), (st = .csiEntry ∨ st = .csiParam ∨ st = .csiInter) →
    truncGo tw cw st buf (ps ++ f :: t) =
      (buf ++ ps ++ [f] ++ (truncGo tw cw .ground [] t).1,
        (truncGo tw cw .ground [] t).2) := by
  intro ps
  induction ps with
  | nil =>
      intro _ f hf1 hf2 t cw st buf hst
      have hfinal : isCsiFinal f = true := by simp [isCsiFinal]; omega
      rcases hst with rfl | rfl | rfl
      · rw [List.nil_append, truncGo_csiEntry_eq, if_pos hfinal]
        simp
      · rw [List.nil_append, truncGo_csiParam_eq, if_pos hfinal]
        simp
      · rw [List.nil_append, truncGo_csiInter_eq, if_pos hfinal]
        simp
  | cons b ps' ih =>
      intro hps f hf1 hf2 t cw st buf hst
      have hb := hps b (List.mem_cons_self _ _)
      have hbf : ¬ isCsiFinal b = true := by simp [isCsiFinal]; omega
      have ihs := ih (fun d hd => hps d (List.mem_cons_of_mem _ hd)) hf1 hf2 t cw
      rcases hst with rfl | rfl | rfl
      · rw [List.cons_append, truncGo_csiEntry_eq, if_neg hbf]
        by_cases hp : isCsiParam b = true
        · rw [if_pos hp, ihs .csiParam (buf ++ [b]) (Or.inr (Or.inl rfl))]
          simp
        · rw [if_neg hp]
          by_cases hi : isCsiIntermediate b = true
          · rw [if_pos hi, ihs .csiInter (buf ++ [b]) (Or.inr (Or.inr rfl))]
            simp
          · rw [if_neg hi, ihs .csiEntry (buf ++ [b]) (Or.inl rfl)]
            simp
      · rw [List.cons_append, truncGo_csiParam_eq, if_neg hbf]
        by_cases hp : isCsiParam b = true
        · rw [if_pos hp, ihs .csiParam (buf ++ [b]) (Or.inr (Or.inl rfl))]
          simp
        · rw [if_neg hp]
          by_cases hi : isCsiIntermediate b = true
          · rw [if_pos hi, ihs .csiInter (buf ++ [b]) (Or.inr (Or.inr rfl))]
            simp
          · rw [if_neg hi, ihs .csiParam (buf ++ [b]) (Or.inr (Or.inl rfl))]
            simp
      · rw [List.cons_append, truncGo_csiInter_eq, if_neg hbf,
          ihs .csiInter (buf ++ [b]) (Or.inr (Or.inr rfl))]
        simp

theorem truncGo_sgr (tw : Nat) : ∀ {s : JStr}, SgrStr s → ∀ (cw : Nat) (buf : JStr),
    cw ≤ tw →
    SgrStr ((truncGo tw cw .ground buf s).1) ∧
    cw + unitW (scanGo .ground ((truncGo tw cw .ground buf s).1)) ≤ tw := by
  intro s hs
  induction hs with
  | nil =>
      intro cw buf hcw
      exact ⟨SgrStr.nil, by simpa [scanGo_nil, unitW] using hcw⟩
  | vis c t hc1 hc2 hc3 ht ih =>
      intro cw buf hcw
      rw [truncGo_ground_eq, if_neg hc1, if_neg hc2]
      by_cases hbudget : cw + codePointWidth c > tw
      · rw [if_pos hbudget]
        exact ⟨SgrStr.nil, by simpa [scanGo_nil, unitW] using hcw⟩
      · rw [if_neg hbudget]
        dsimp only
        obtain ⟨ih1, ih2⟩ := ih (cw + codePointWidth c) buf (by omega)
        refine ⟨SgrStr.vis c _ hc1 hc2 hc3 ih1, ?_⟩
        rw [scan_sgr_cons_vis hc1 hc2 hc3]
        have hu : unitW (c :: scanGo .ground
            ((truncGo tw (cw + codePointWidth c) .ground buf t).1)) =
            codePointWidth c + unitW (scanGo .ground
              ((truncGo tw (cw + codePointWidth c) .ground buf t).1)) := by
          simp [unitW]
        omega
  | csiEsc ps f t hps hf1 hf2 ht ih =>
      intro cw buf hcw
      rw [show truncGo tw cw .ground buf (0x1b :: 0x5b :: (ps ++ f :: t)) =
        truncGo tw cw .csiEntry [0x1b, 0x5b] (ps ++ f :: t) from rfl,
        truncGo_csi_run tw ps hps hf1 hf2 t cw .csiEntry [0x1b, 0x5b] (Or.inl rfl)]
      dsimp only
      obtain ⟨ih1, ih2⟩ := ih cw [] hcw
      have hsh : ([0x1b, 0x5b] ++ ps ++ [f] ++ (truncGo tw cw .ground [] t).1 : JStr) =
          0x1b :: 0x5b :: (ps ++ f :: (truncGo tw cw .ground [] t).1) := by simp
      rw [hsh]
      refine ⟨SgrStr.csiEsc ps f _ hps hf1 hf2 ih1, ?_⟩
      rw [scan_sgr_csiEsc _ hps hf1 hf2]
      exact ih2
  | csi8 ps f t hps hf1 hf2 ht ih =>
      intro cw buf hcw
      rw [show truncGo tw cw .ground buf (0x9b :: (ps ++ f :: t)) =
        truncGo tw cw .csiEntry [0x9b] (ps ++ f :: t) from rfl,
        truncGo_csi_run tw ps hps hf1 hf2 t cw .csiEntry [0x9b] (Or.inl rfl)]
      dsimp only
      obtain ⟨ih1, ih2⟩ := ih cw [] hcw
      have hsh : ([0x9b] ++ ps ++ [f] ++ (truncGo tw cw .ground [] t).1 : JStr) =
          0x9b :: (ps ++ f :: (truncGo tw cw .ground [] t).1) := by simp
      rw [hsh]
      refine ⟨SgrStr.csi8 ps f _ hps hf1 hf2 ih1, ?_⟩
      rw [scan_sgr_csi8 _ hps hf1 hf2]
      exact ih2

theorem sgrStr_vis_list : ∀ (s : JStr),
    (∀ c ∈ s, c ≠ 0x1b ∧ c ≠ 0x9b ∧ c ≠ 0x9d) → SgrStr s := by
  intro s
  induction s with
  | nil => intro _; exact SgrStr.nil
  | cons c t ih =>
      intro h
      obtain ⟨h1, h2, h3⟩ := h c (List.mem_cons_self _ _)
      exact SgrStr.vis c t h1 h2 h3 (ih fun d hd => h d (List.mem_cons_of_mem _ hd))

/-- C1 counterexample: the claimed width bound fails on the raw-slice
fallback. With `maxWidth = 2`, body `"abc"` (width 3) and a tail of three
wide CJK characters (width 6 ≥ 2), `truncate` returns the raw slice
`tail.slice(0, 2)`, two wide characters of display width 4 > 2. -/
theorem C1_truncate_counterexample :
    stringWidth (truncate [97, 98, 99] 2 [0x4f60, 0x4f60, 0x4f60]) = 4 ∧
    ¬ (stringWidth (truncate [97, 98, 99] 2 [0x4f60, 0x4f60, 0x4f60]) ≤ 2) := by
  decide

/-- C1 (amended): `maxWidth ≤ 0` gives the empty string. When the tail is
strictly narrower than `maxWidth`, the result's display width is at most
`maxWidth` and, for inputs made of visible units and complete SGR-style CSI
runs, the result again consists of visible units and complete CSI runs (no
partial control sequence). But when `width(tail) ≥ maxWidth` (and the body
is wider than `maxWidth`), the result is the raw UTF-16 slice
`tail.slice(0, maxWidth)`, which can both exceed `maxWidth` in display
width and split a control sequence or surrogate pair — so the claimed
bounds hold only outside that fallback branch. -/
theorem C1_truncate_amended (s tl : JStr) (mw : Int) (hs : SgrStr s)
    (htl : SgrStr tl) :
    (mw ≤ 0 → truncate s mw tl = []) ∧
    (0 < mw → (stringWidth tl : Int) < mw →
      (stringWidth (truncate s mw tl) : Int) ≤ mw ∧ SgrStr (truncate s mw tl)) ∧
    (0 < mw → mw ≤ (stringWidth tl : Int) → mw < (stringWidth s : Int) →
      truncate s mw tl = tl.take mw.toNat) := by
  refine ⟨fun h => by simp only [truncate]; rw [if_pos h], ?_, ?_⟩
  · intro hmw htlw
    by_cases hsw : (stringWidth s : Int) ≤ mw
    · have he : truncate s mw tl = s := by
        simp only [truncate]
        rw [if_neg (by omega), if_pos hsw]
      rw [he]
      exact ⟨hsw, hs⟩
    · have hcut := truncate_cut_eq s tl mw hmw htlw (by omega)
      rw [hcut]
      obtain ⟨hb1, hb2⟩ :=
        truncGo_sgr (mw - stringWidth tl).toNat hs 0 [] (Nat.zero_le _)
      refine ⟨?_, SgrStr.append hb1 htl⟩
      rw [stringWidth_sgr (SgrStr.append hb1 htl), scan_sgr_append hb1]
      have e3 := pairedW_append_le
        (scanGo .ground ((truncGo (mw - stringWidth tl).toNat 0 .ground [] s).1))
        (scanGo .ground tl)
      have e4 : stringWidth tl = pairedW (scanGo .ground tl) := stringWidth_sgr htl
      omega
  · intro hmw htlw hsw
    simp only [truncate]
    rw [if_neg (by omega), if_neg (by omega), if_pos (by omega)]

/-- Witness for C1: a complete red-SGR prefix followed by six letters is
cut to width 4 with a one-character tail (width bound holds), and the
raw-slice fallback returns the sliced tail. -/
theorem C1_truncate_amended_witness :
    (stringWidth (truncate (0x1b :: 0x5b :: ([0x33, 0x31] ++ 0x6d ::
      [97, 98, 99, 100, 101, 102])) 4 [46]) : Int) ≤ 4 ∧
    truncate [97, 98, 99] 1 [120, 121] = [120] := by
  constructor
  · exact ((C1_truncate_amended _ [46] 4
      (SgrStr.csiEsc [0x33, 0x31] 0x6d _ (by decide) (by decide) (by decide)
        (sgrStr_vis_list _ (by decide)))
      (sgrStr_vis_list [46] (by decide))).2.1 (by decide) (by decide)).1
  · exact (C1_truncate_amended [97, 98, 99] [120, 121] 1
      (sgrStr_vis_list _ (by decide)) (sgrStr_vis_list _ (by decide))).2.2
      (by decide) (by decide) (by decide)
